import Mathlib

/-!
Verification of the UVM variant-21 instruction codec, assembler and
interpreter (`src/utils.py`, `src/assembler.py`, `src/interpreter.py`).

The Python source is shallowly embedded: Python arbitrary-precision `int`
becomes `Int` (or `Nat` where the source value is a count or a byte),
Python lists become `List`, in-place mutation becomes explicit state
passing, and raised exceptions become explicit error values
(`VMError` for the interpreter, `AsmError` for the translator).
-/

instance {ε α : Type _} [DecidableEq ε] [DecidableEq α] : DecidableEq (Except ε α)
  | .error e, .error f =>
    if h : e = f then .isTrue (by rw [h]) else .isFalse (by simp [h])
  | .error _, .ok _ => .isFalse (by simp)
  | .ok _, .error _ => .isFalse (by simp)
  | .ok a, .ok b =>
    if h : a = b then .isTrue (by rw [h]) else .isFalse (by simp [h])

namespace UVM

/-! ## Bit-field codec (`src/utils.py`) -/

/-- Embeds `mask(n) = (1 << n) - 1` from `src/utils.py`. -/
def mask (n : Nat) : Nat := (1 <<< n) - 1

/-- Python `v << n` on an arbitrary-precision integer is exactly
multiplication by `2 ^ n` (also for negative `v`). -/
def pyShiftLeft (v : Int) (n : Nat) : Int := v * (2 : Int) ^ n

/-- Embeds `pack_fields(pairs)` from `src/utils.py`:
`val |= (v & mask(width)) << start` folded over the list, then
`val & 0xFFFFFFFF`.  Python `&`, `|` on possibly negative ints are
two's-complement bitwise operations, which is what `Int.land` / `Int.lor`
implement. -/
def pack_fields (pairs : List (Int × Nat × Nat)) : Int :=
  Int.land
    (pairs.foldl
      (fun val p => Int.lor val (pyShiftLeft (Int.land p.1 (mask p.2.2 : Int)) p.2.1))
      0)
    0xFFFFFFFF

/-- Embeds `unpack_field(cmd, start, width) = (cmd >> start) & mask(width)` from
`src/utils.py`.  Python `>>` on ints is an arithmetic (floor) shift, which
is `Int.shiftRight`. -/
def unpack_field (cmd : Int) (start width : Nat) : Int :=
  Int.land (Int.shiftRight cmd start) (mask width : Int)

/-! ## Machine state and errors (`src/interpreter.py`) -/

/-- The `state` dict built by `run_binary_bytes`. -/
structure VMState where
  regs : List Int
  mem : List Int
  pc : Nat
  program_len : Nat
deriving DecidableEq, Repr

/-- The exceptions the interpreter can raise, by the spec's taxonomy:
`alignmentError` is the `ValueError` for a byte length not divisible by 4,
`sizeError` the `MemoryError` for an oversised program, `outOfBounds` the
`IndexError` raised by the register checks and `_check_addr`,
`unknownOpcode` the final `ValueError` of `decode_and_execute_one`, and
`zeroDivision` the `ZeroDivisionError` Python's `pow` raises for
`pow(0, negative)`. -/
inductive VMError where
  | alignmentError
  | sizeError (programLen memSize : Nat)
  | outOfBounds (what : String) (addr : Int)
  | unknownOpcode (a : Int)
  | zeroDivision
deriving DecidableEq, Repr

/-- Embeds the register assignment `state.regs[i] = v` as a state transformer. -/
def setReg (s : VMState) (i : Nat) (v : Int) : VMState :=
  { s with regs := s.regs.set i v }

/-- Embeds the memory assignment `state.mem[i] = v` as a state transformer. -/
def setMem (s : VMState) (i : Nat) (v : Int) : VMState :=
  { s with mem := s.mem.set i v }

/-- Embeds `decode_and_execute_one(cmd_int, state)` from `src/interpreter.py`.

The returned pair is (state after the call, exception raised if any); in
the Python source the state dict is mutated in place and each opcode
branch performs its single write as its last action, after every bounds
check, so an exception leaves the state as it was.

The POW branch embeds Python `int(pow(op1, op2))`:
for `op2 ≥ 0` this is the exact integer power `op1 ^ op2`;
for `op2 < 0` Python evaluates a float power and `int` truncates it toward
zero, which for `op1 ≠ 0` (of float-convertible magnitude, the only case
exercised here) equals the truncation toward zero of the exact rational
`op1 ^ op2`, i.e. `Int.tdiv 1 (op1 ^ |op2|)`; for `op1 = 0` Python raises
`ZeroDivisionError`. -/
def decode_and_execute_one (cmd_int : Int) (s : VMState) : VMState × Option VMError :=
  let regs := s.regs
  let mem := s.mem
  let mem_size := mem.length
  let A := Int.land cmd_int (mask 5 : Int)
  if A = 13 then -- LOAD_CONST
    let B := unpack_field cmd_int 5 7
    let C := unpack_field cmd_int 12 11
    if B < 0 ∨ (regs.length : Int) ≤ B then
      (s, some (.outOfBounds "LOAD_CONST: register B" B))
    else
      (setReg s B.toNat C, none)
  else if A = 26 then -- READ_MEM
    let B := unpack_field cmd_int 5 7
    let C := unpack_field cmd_int 12 7
    let D := unpack_field cmd_int 19 6
    if B < 0 ∨ (regs.length : Int) ≤ B then
      (s, some (.outOfBounds "READ_MEM: register B" B))
    else if C < 0 ∨ (regs.length : Int) ≤ C then
      (s, some (.outOfBounds "READ_MEM: register C" C))
    else
      let addr := regs.getD B.toNat 0 + D
      if addr < 0 ∨ (mem_size : Int) ≤ addr then
        (s, some (.outOfBounds "READ_MEM" addr))
      else
        (setReg s C.toNat (mem.getD addr.toNat 0), none)
  else if A = 15 then -- WRITE_MEM
    let B := unpack_field cmd_int 5 7
    let C := unpack_field cmd_int 12 14
    if B < 0 ∨ (regs.length : Int) ≤ B then
      (s, some (.outOfBounds "WRITE_MEM: register B" B))
    else
      let addr := C
      if addr < 0 ∨ (mem_size : Int) ≤ addr then
        (s, some (.outOfBounds "WRITE_MEM" addr))
      else
        (setMem s addr.toNat (regs.getD B.toNat 0), none)
  else if A = 22 then -- POW
    let B := unpack_field cmd_int 5 7
    let C := unpack_field cmd_int 12 7
    let D := unpack_field cmd_int 19 6
    let E := unpack_field cmd_int 25 7
    if B < 0 ∨ (regs.length : Int) ≤ B then
      (s, some (.outOfBounds "POW: register B" B))
    else if C < 0 ∨ (regs.length : Int) ≤ C then
      (s, some (.outOfBounds "POW: register C" C))
    else if E < 0 ∨ (regs.length : Int) ≤ E then
      (s, some (.outOfBounds "POW: register E" E))
    else
      let addr1 := regs.getD E.toNat 0 + D
      if addr1 < 0 ∨ (mem_size : Int) ≤ addr1 then
        (s, some (.outOfBounds "POW operand1" addr1))
      else
        let op1 := mem.getD addr1.toNat 0
        let addr2 := regs.getD B.toNat 0
        if addr2 < 0 ∨ (mem_size : Int) ≤ addr2 then
          (s, some (.outOfBounds "POW operand2" addr2))
        else
          let op2 := mem.getD addr2.toNat 0
          if op2 < 0 then
            if op1 = 0 then (s, some .zeroDivision)
            else (setReg s C.toNat (Int.tdiv 1 (op1 ^ op2.natAbs)), none)
          else
            (setReg s C.toNat (op1 ^ op2.toNat), none)
  else
    (s, some (.unknownOpcode A))

/-- The `while state["pc"] < state["program_len"]` loop of
`run_binary_bytes`, fuel-indexed.  `decode_and_execute_one` never touches
`pc` or `program_len`, and the loop body increments `pc` by one, so fuel
`program_len - pc` (and a fortiori `program_len`, from `pc = 0`) makes the
fueled loop agree with the unbounded Python loop. -/
def runLoop : Nat → VMState → VMState × Option VMError
  | 0, s => (s, none)
  | fuel + 1, s =>
    if s.pc < s.program_len then
      let instr := s.mem.getD s.pc 0
      let s1 := { s with pc := s.pc + 1 }
      match decode_and_execute_one instr s1 with
      | (s2, none) => runLoop fuel s2
      | (s2, some e) => (s2, some e)
    else
      (s, none)

/-- The loop `runLoop` instrumented with the list of addresses fetched from
(a ghost observer used to state the straight-line execution claim;
`runLoopTrace_fst` relates it to `runLoop`). -/
def runLoopTrace : Nat → VMState → (VMState × Option VMError) × List Nat
  | 0, s => ((s, none), [])
  | fuel + 1, s =>
    if s.pc < s.program_len then
      let instr := s.mem.getD s.pc 0
      let s1 := { s with pc := s.pc + 1 }
      match decode_and_execute_one instr s1 with
      | (s2, none) =>
        let r := runLoopTrace fuel s2
        (r.1, s.pc :: r.2)
      | (s2, some e) => ((s2, some e), [s.pc])
    else
      ((s, none), [])

/-- The word list `program_words` of `run_binary_bytes`: each 4-byte
little-endian chunk becomes one word (`int.from_bytes(..., "little")`).
Defined on the already-alignment-checked byte list. -/
def wordsOfBytes : List Nat → List Nat
  | b0 :: b1 :: b2 :: b3 :: rest =>
    (b0 + 256 * b1 + 65536 * b2 + 16777216 * b3) :: wordsOfBytes rest
  | _ => []

/-- The program-loading loop `for i, w in enumerate(program_words):
state["mem"][i] = w`. -/
def loadWordsFrom : Nat → List Nat → List Int → List Int
  | _, [], mem => mem
  | i, w :: ws, mem => loadWordsFrom (i + 1) ws (mem.set i (Int.ofNat w))

/-- The machine state `run_binary_bytes` has built just before entering
its execution loop: zeroed registers and memory, the program words loaded
from address 0, `pc = 0` and `program_len` the word count. -/
def loadedState (words : List Nat) (mem_size regs_count : Nat) : VMState :=
  { regs := List.replicate regs_count 0
    mem := loadWordsFrom 0 words (List.replicate mem_size 0)
    pc := 0
    program_len := words.length }

/-- Embeds `run_binary_bytes(code_bytes, mem_size, regs_count)` from
`src/interpreter.py` (defaults in the source: `mem_size = 1 << 16`,
`regs_count = 32`).  Raised exceptions become `Except.error`; on normal
termination the final state dict is returned. -/
def run_binary_bytes (code_bytes : List Nat) (mem_size : Nat) (regs_count : Nat) :
    Except VMError VMState :=
  if code_bytes.length % 4 ≠ 0 then
    .error .alignmentError
  else
    let program_words := wordsOfBytes code_bytes
    if program_words.length > mem_size then
      .error (.sizeError program_words.length mem_size)
    else
      match runLoop program_words.length (loadedState program_words mem_size regs_count) with
      | (fin, none) => .ok fin
      | (_, some e) => .error e

/-! ## Assembler (`src/assembler.py`) -/

/-- The IR records produced by `to_ir`: a tagged variant, one case per
mnemonic, holding that mnemonic's integer operands. -/
inductive IR where
  | load_const (B C : Int)
  | read_mem (B C D : Int)
  | write_mem (B C : Int)
  | pow (B C D E : Int)
deriving DecidableEq, Repr

/-- Embeds `val.to_bytes(4, "little")` for the packed word `val`
(always in `[0, 2^32)` because `pack_fields` masks to 32 bits). -/
def bytesLE4 (v : Int) : List Nat :=
  let n := v.toNat
  [n % 256, (n >>> 8) % 256, (n >>> 16) % 256, (n >>> 24) % 256]

/-- Embeds `encode_instr(ir)` from `src/assembler.py`: pack the opcode-dispatch
value and the record's fields at the variant-21 offsets, serialize
little-endian.  (The Python `raise ValueError` fallthrough for an unknown
tag is unrepresentable in the closed `IR` type.) -/
def encode_instr : IR → List Nat
  | .load_const B C =>
    bytesLE4 (pack_fields [(13, 0, 5), (B, 5, 7), (C, 12, 11)])
  | .read_mem B C D =>
    bytesLE4 (pack_fields [(26, 0, 5), (B, 5, 7), (C, 12, 7), (D, 19, 6)])
  | .write_mem B C =>
    bytesLE4 (pack_fields [(15, 0, 5), (B, 5, 7), (C, 12, 14)])
  | .pow B C D E =>
    bytesLE4 (pack_fields [(22, 0, 5), (B, 5, 7), (C, 12, 7), (D, 19, 6), (E, 25, 7)])

/-- Embeds `assemble(ir_list)`: concatenation of the per-record encodings in
input order. -/
def assemble (ir_list : List IR) : List Nat :=
  (ir_list.map encode_instr).flatten

/-! ## Textual-to-IR translator (`to_ir` in `src/assembler.py`) -/

/-- ASCII uppercasing of one character (`str.upper` restricted to the
ASCII mnemonics this translator compares against). -/
def upChar (c : Char) : Char :=
  if 'a' ≤ c ∧ c ≤ 'z' then Char.ofNat (c.toNat - 32) else c

/-- Embeds `row[0].upper()` for the ASCII mnemonic tokens. -/
def upStr (s : String) : String := String.mk (s.data.map upChar)

/-- Digit-string value, `none` on an empty or non-digit string. -/
def digitsVal (cs : List Char) : Option Nat :=
  if cs = [] then none
  else
    cs.foldl
      (fun acc c =>
        match acc with
        | none => none
        | some n => if c.isDigit then some (n * 10 + (c.toNat - 48)) else none)
      (some 0)

/-- Python `int(token)` on the already-stripped CSV tokens `to_ir`
receives from `parse_csv_program`: an optional sign followed by one or
more decimal digits; `none` models the `ValueError` Python raises on
anything else. -/
def parseInt (s : String) : Option Int :=
  match s.data with
  | [] => none
  | c :: cs =>
    if c = '-' then (digitsVal cs).map (fun n => -(n : Int))
    else if c = '+' then (digitsVal cs).map (fun n => (n : Int))
    else (digitsVal (c :: cs)).map (fun n => (n : Int))

/-- The exceptions `to_ir` can raise: `validation` is the `ValueError`
for a wrong argument count, an unparseable integer argument or an unknown
mnemonic (the spec's ValidationError), carrying the 0-based row index;
`emptyRow` is the `IndexError` Python's `row[0]` would raise on an empty
row (never produced by `parse_csv_program`, which drops empty rows). -/
inductive AsmError where
  | validation (line : Nat) (msg : String)
  | emptyRow (line : Nat)
deriving DecidableEq, Repr

/-- One iteration of the `to_ir` loop body on row number `idx`:
uppercase the mnemonic, check the argument count (`need`), parse the
integer arguments, build the IR record. -/
def rowToIR (idx : Nat) (row : List String) : Except AsmError IR :=
  match row with
  | [] => .error (.emptyRow idx)
  | first :: _ =>
    let cmd := upStr first
    if cmd = "LOAD_CONST" then
      if row.length ≠ 3 then .error (.validation idx "LOAD_CONST expects 2 args")
      else
        match parseInt (row.getD 1 ""), parseInt (row.getD 2 "") with
        | some B, some C => .ok (.load_const B C)
        | _, _ => .error (.validation idx "argument is not an integer")
    else if cmd = "READ_MEM" then
      if row.length ≠ 4 then .error (.validation idx "READ_MEM expects 3 args")
      else
        match parseInt (row.getD 1 ""), parseInt (row.getD 2 ""), parseInt (row.getD 3 "") with
        | some B, some C, some D => .ok (.read_mem B C D)
        | _, _, _ => .error (.validation idx "argument is not an integer")
    else if cmd = "WRITE_MEM" then
      if row.length ≠ 3 then .error (.validation idx "WRITE_MEM expects 2 args")
      else
        match parseInt (row.getD 1 ""), parseInt (row.getD 2 "") with
        | some B, some C => .ok (.write_mem B C)
        | _, _ => .error (.validation idx "argument is not an integer")
    else if cmd = "POW" then
      if row.length ≠ 5 then .error (.validation idx "POW expects 4 args")
      else
        match parseInt (row.getD 1 ""), parseInt (row.getD 2 ""),
              parseInt (row.getD 3 ""), parseInt (row.getD 4 "") with
        | some B, some C, some D, some E => .ok (.pow B C D E)
        | _, _, _, _ => .error (.validation idx "argument is not an integer")
    else
      .error (.validation idx "unknown command")

/-- The `to_ir` loop from row number `idx` on: translate each row in
order, aborting at the first raising row. -/
def to_ir_from (idx : Nat) : List (List String) → Except AsmError (List IR)
  | [] => .ok []
  | r :: rs =>
    match rowToIR idx r with
    | .error e => .error e
    | .ok ir =>
      match to_ir_from (idx + 1) rs with
      | .error e => .error e
      | .ok rest => .ok (ir :: rest)

/-- Embeds `to_ir(csv_rows)` from `src/assembler.py`. -/
def to_ir (rows : List (List String)) : Except AsmError (List IR) :=
  to_ir_from 0 rows

/-! ## Derived predicates used by the theorems -/

/-- The textual program of end-to-end scenario A, as the row list
`parse_csv_program` would deliver to `to_ir`. -/
def sAProgram : List (List String) :=
  [["LOAD_CONST", "0", "123"],
   ["WRITE_MEM", "0", "100"],
   ["LOAD_CONST", "2", "100"],
   ["READ_MEM", "2", "1", "0"]]

/-- The four instruction words scenario A assembles to. -/
def sAWords : List Nat := [503821, 409615, 409677, 4186]

/-- The byte stream scenario A assembles to (little-endian serialization
of `sAWords`). -/
def sABytes : List Nat :=
  [13, 176, 7, 0, 15, 64, 6, 0, 77, 64, 6, 0, 90, 16, 0, 0]

/-- The zeroed default register file (32 registers). -/
def sARegs0 : List Int := List.replicate 32 0

/-- The default-sized memory (65536 words) right after scenario A's
program has been loaded at address 0. -/
def sAMem0 : List Int :=
  ((((List.replicate 65536 (0 : Int)).set 0 503821).set 1 409615).set 2 409677).set 3 4186

/-- The opcode-dispatch field (bits 0-4) of an instruction word, as the
interpreter computes it. -/
def opcodeOf (cmd_int : Int) : Int := Int.land cmd_int (mask 5 : Int)

/-- The word `cmd_int` carries one of the four known opcode-dispatch values. -/
def knownOpcode (cmd_int : Int) : Prop :=
  opcodeOf cmd_int = 13 ∨ opcodeOf cmd_int = 26 ∨
    opcodeOf cmd_int = 15 ∨ opcodeOf cmd_int = 22

/-- Every register index and memory address the instruction `cmd_int`
uses on state `s` is within bounds: the registers named by the decoded
fields satisfy `0 ≤ index < register count` and the memory addresses
used by READ_MEM, WRITE_MEM and POW satisfy `0 ≤ address < memory size`
(for an unknown opcode no access is attempted). -/
def boundsOK (cmd_int : Int) (s : VMState) : Prop :=
  let A := opcodeOf cmd_int
  let inRegs := fun x : Int => 0 ≤ x ∧ x < (s.regs.length : Int)
  let inMem := fun x : Int => 0 ≤ x ∧ x < (s.mem.length : Int)
  if A = 13 then
    inRegs (unpack_field cmd_int 5 7)
  else if A = 26 then
    inRegs (unpack_field cmd_int 5 7) ∧ inRegs (unpack_field cmd_int 12 7) ∧
      inMem (s.regs.getD (unpack_field cmd_int 5 7).toNat 0 + unpack_field cmd_int 19 6)
  else if A = 15 then
    inRegs (unpack_field cmd_int 5 7) ∧ inMem (unpack_field cmd_int 12 14)
  else if A = 22 then
    inRegs (unpack_field cmd_int 5 7) ∧ inRegs (unpack_field cmd_int 12 7) ∧
      inRegs (unpack_field cmd_int 25 7) ∧
      inMem (s.regs.getD (unpack_field cmd_int 25 7).toNat 0 + unpack_field cmd_int 19 6) ∧
      inMem (s.regs.getD (unpack_field cmd_int 5 7).toNat 0)
  else
    True

instance (cmd_int : Int) (s : VMState) : Decidable (boundsOK cmd_int s) := by
  unfold boundsOK
  exact inferInstance

instance (cmd_int : Int) : Decidable (knownOpcode cmd_int) := by
  unfold knownOpcode
  exact inferInstance

/-- All register values and all memory cell values of `s` are
non-negative. -/
def nonnegState (s : VMState) : Prop :=
  (∀ x ∈ s.regs, 0 ≤ x) ∧ (∀ x ∈ s.mem, 0 ≤ x)

/-- The validity condition §4.2 of the spec states for one textual row:
the (case-insensitive) mnemonic is one of the four known opcodes, the
argument count matches that mnemonic's arity, and every argument parses
as an integer. -/
def rowValid (row : List String) : Prop :=
  match row with
  | [] => False
  | first :: args =>
    let cmd := upStr first
    (cmd = "LOAD_CONST" ∧ args.length = 2 ∧ ∀ a ∈ args, (parseInt a).isSome) ∨
    (cmd = "READ_MEM" ∧ args.length = 3 ∧ ∀ a ∈ args, (parseInt a).isSome) ∨
    (cmd = "WRITE_MEM" ∧ args.length = 2 ∧ ∀ a ∈ args, (parseInt a).isSome) ∨
    (cmd = "POW" ∧ args.length = 4 ∧ ∀ a ∈ args, (parseInt a).isSome)

instance (row : List String) : Decidable (rowValid row) := by
  unfold rowValid
  exact match row with
  | [] => inferInstanceAs (Decidable False)
  | first :: args => inferInstance

/-! ## Basic lemmas -/

/-- Bitwise AND with a non-negative mask is non-negative (Python `&` /
`Int.land` is two's-complement). -/
theorem land_ofNat_nonneg (x : Int) (n : Nat) : 0 ≤ Int.land x (Int.ofNat n) := by
  cases x with
  | ofNat m => exact Int.ofNat_nonneg _
  | negSucc m => exact Int.ofNat_nonneg _

/-- Decoded fields are never negative. -/
theorem unpack_field_nonneg (cmd : Int) (start width : Nat) :
    0 ≤ unpack_field cmd start width :=
  land_ofNat_nonneg _ _

theorem getD_set_self {l : List Int} {i : Nat} (v : Int) (h : i < l.length) :
    (l.set i v).getD i 0 = v := by
  induction l generalizing i with
  | nil => simp at h
  | cons a as ih =>
    cases i with
    | zero => rfl
    | succ j => exact ih (Nat.lt_of_succ_lt_succ h)

theorem getD_set_of_ne {i j : Nat} (l : List Int) (v : Int) (h : i ≠ j) :
    (l.set i v).getD j 0 = l.getD j 0 := by
  induction l generalizing i j with
  | nil => rfl
  | cons a as ih =>
    cases i with
    | zero =>
      cases j with
      | zero => exact absurd rfl h
      | succ j' => rfl
    | succ i' =>
      cases j with
      | zero => rfl
      | succ j' => exact ih (fun hc => h (by rw [hc]))

theorem getD_replicate_zero (n i : Nat) :
    (List.replicate n (0 : Int)).getD i 0 = 0 := by
  induction n generalizing i with
  | zero => rfl
  | succ m ih =>
    cases i with
    | zero => rfl
    | succ j => exact ih j

theorem length_loadWordsFrom (ws : List Nat) (i : Nat) (mem : List Int) :
    (loadWordsFrom i ws mem).length = mem.length := by
  induction ws generalizing i mem with
  | nil => rfl
  | cons w ws ih => rw [loadWordsFrom, ih, List.length_set]

/-! ## Branch-selection lemmas for `decode_and_execute_one`

One lemma per opcode-dispatch value: each rewrites a call of
`decode_and_execute_one` into just that opcode's residual check-and-write
tree, so later proofs never have to case-split the whole definition. -/

theorem decode_when_13 (cmd : Int) (s : VMState)
    (hA : Int.land cmd (mask 5 : Int) = 13) :
    decode_and_execute_one cmd s =
      (if unpack_field cmd 5 7 < 0 ∨ (s.regs.length : Int) ≤ unpack_field cmd 5 7 then
        (s, some (.outOfBounds "LOAD_CONST: register B" (unpack_field cmd 5 7)))
      else
        (setReg s (unpack_field cmd 5 7).toNat (unpack_field cmd 12 11), none)) := by
  unfold decode_and_execute_one
  rw [hA]
  rw [if_pos rfl]

theorem decode_when_26 (cmd : Int) (s : VMState)
    (hA : Int.land cmd (mask 5 : Int) = 26) :
    decode_and_execute_one cmd s =
      (if unpack_field cmd 5 7 < 0 ∨ (s.regs.length : Int) ≤ unpack_field cmd 5 7 then
        (s, some (.outOfBounds "READ_MEM: register B" (unpack_field cmd 5 7)))
      else if unpack_field cmd 12 7 < 0 ∨ (s.regs.length : Int) ≤ unpack_field cmd 12 7 then
        (s, some (.outOfBounds "READ_MEM: register C" (unpack_field cmd 12 7)))
      else if s.regs.getD (unpack_field cmd 5 7).toNat 0 + unpack_field cmd 19 6 < 0 ∨
          (s.mem.length : Int) ≤ s.regs.getD (unpack_field cmd 5 7).toNat 0 + unpack_field cmd 19 6 then
        (s, some (.outOfBounds "READ_MEM" (s.regs.getD (unpack_field cmd 5 7).toNat 0 + unpack_field cmd 19 6)))
      else
        (setReg s (unpack_field cmd 12 7).toNat (s.mem.getD (s.regs.getD (unpack_field cmd 5 7).toNat 0 + unpack_field cmd 19 6).toNat 0), none)) := by
  unfold decode_and_execute_one
  rw [hA]
  rw [if_neg (by decide), if_pos rfl]

theorem decode_when_15 (cmd : Int) (s : VMState)
    (hA : Int.land cmd (mask 5 : Int) = 15) :
    decode_and_execute_one cmd s =
      (if unpack_field cmd 5 7 < 0 ∨ (s.regs.length : Int) ≤ unpack_field cmd 5 7 then
        (s, some (.outOfBounds "WRITE_MEM: register B" (unpack_field cmd 5 7)))
      else if unpack_field cmd 12 14 < 0 ∨ (s.mem.length : Int) ≤ unpack_field cmd 12 14 then
        (s, some (.outOfBounds "WRITE_MEM" (unpack_field cmd 12 14)))
      else
        (setMem s (unpack_field cmd 12 14).toNat (s.regs.getD (unpack_field cmd 5 7).toNat 0), none)) := by
  unfold decode_and_execute_one
  rw [hA]
  rw [if_neg (by decide), if_neg (by decide), if_pos rfl]

theorem decode_when_22 (cmd : Int) (s : VMState)
    (hA : Int.land cmd (mask 5 : Int) = 22) :
    decode_and_execute_one cmd s =
      (if unpack_field cmd 5 7 < 0 ∨ (s.regs.length : Int) ≤ unpack_field cmd 5 7 then
        (s, some (.outOfBounds "POW: register B" (unpack_field cmd 5 7)))
      else if unpack_field cmd 12 7 < 0 ∨ (s.regs.length : Int) ≤ unpack_field cmd 12 7 then
        (s, some (.outOfBounds "POW: register C" (unpack_field cmd 12 7)))
      else if unpack_field cmd 25 7 < 0 ∨ (s.regs.length : Int) ≤ unpack_field cmd 25 7 then
        (s, some (.outOfBounds "POW: register E" (unpack_field cmd 25 7)))
      else if s.regs.getD (unpack_field cmd 25 7).toNat 0 + unpack_field cmd 19 6 < 0 ∨
          (s.mem.length : Int) ≤ s.regs.getD (unpack_field cmd 25 7).toNat 0 + unpack_field cmd 19 6 then
        (s, some (.outOfBounds "POW operand1" (s.regs.getD (unpack_field cmd 25 7).toNat 0 + unpack_field cmd 19 6)))
      else if s.regs.getD (unpack_field cmd 5 7).toNat 0 < 0 ∨
          (s.mem.length : Int) ≤ s.regs.getD (unpack_field cmd 5 7).toNat 0 then
        (s, some (.outOfBounds "POW operand2" (s.regs.getD (unpack_field cmd 5 7).toNat 0)))
      else if s.mem.getD (s.regs.getD (unpack_field cmd 5 7).toNat 0).toNat 0 < 0 then
        (if s.mem.getD (s.regs.getD (unpack_field cmd 25 7).toNat 0 + unpack_field cmd 19 6).toNat 0 = 0 then
          (s, some .zeroDivision)
        else
          (setReg s (unpack_field cmd 12 7).toNat (Int.tdiv 1 (s.mem.getD (s.regs.getD (unpack_field cmd 25 7).toNat 0 + unpack_field cmd 19 6).toNat 0 ^ (s.mem.getD (s.regs.getD (unpack_field cmd 5 7).toNat 0).toNat 0).natAbs)), none))
      else
        (setReg s (unpack_field cmd 12 7).toNat (s.mem.getD (s.regs.getD (unpack_field cmd 25 7).toNat 0 + unpack_field cmd 19 6).toNat 0 ^ (s.mem.getD (s.regs.getD (unpack_field cmd 5 7).toNat 0).toNat 0).toNat), none)) := by
  unfold decode_and_execute_one
  rw [hA]
  rw [if_neg (by decide), if_neg (by decide), if_neg (by decide), if_pos rfl]

theorem decode_when_unknown (cmd : Int) (s : VMState)
    (h13 : Int.land cmd (mask 5 : Int) ≠ 13) (h26 : Int.land cmd (mask 5 : Int) ≠ 26)
    (h15 : Int.land cmd (mask 5 : Int) ≠ 15) (h22 : Int.land cmd (mask 5 : Int) ≠ 22) :
    decode_and_execute_one cmd s = (s, some (.unknownOpcode (Int.land cmd (mask 5 : Int)))) := by
  unfold decode_and_execute_one
  rw [if_neg h13, if_neg h26, if_neg h15, if_neg h22]

/-! ## Symbolic execution of one instruction, per opcode -/

/-- Successful LOAD_CONST: `reg[B] ← C`. -/
theorem exec_load_const (cmd : Int) (s : VMState)
    (hA : Int.land cmd (mask 5 : Int) = 13)
    (hB : (unpack_field cmd 5 7).toNat < s.regs.length) :
    decode_and_execute_one cmd s =
      (setReg s (unpack_field cmd 5 7).toNat (unpack_field cmd 12 11), none) := by
  have h0 : 0 ≤ unpack_field cmd 5 7 := unpack_field_nonneg _ _ _
  have hcond : ¬(unpack_field cmd 5 7 < 0 ∨ (s.regs.length : Int) ≤ unpack_field cmd 5 7) := by
    push_neg
    exact ⟨h0, by omega⟩
  unfold decode_and_execute_one
  rw [hA]
  rw [if_pos rfl, if_neg hcond]

/-- Successful READ_MEM: `reg[C] ← mem[reg[B] + D]`. -/
theorem exec_read_mem (cmd : Int) (s : VMState)
    (hA : Int.land cmd (mask 5 : Int) = 26)
    (hB : (unpack_field cmd 5 7).toNat < s.regs.length)
    (hC : (unpack_field cmd 12 7).toNat < s.regs.length)
    (ha0 : 0 ≤ s.regs.getD (unpack_field cmd 5 7).toNat 0 + unpack_field cmd 19 6)
    (ha1 : (s.regs.getD (unpack_field cmd 5 7).toNat 0 + unpack_field cmd 19 6).toNat
            < s.mem.length) :
    decode_and_execute_one cmd s =
      (setReg s (unpack_field cmd 12 7).toNat (s.mem.getD (s.regs.getD (unpack_field cmd 5 7).toNat 0 + unpack_field cmd 19 6).toNat 0), none) := by
  have h0B : 0 ≤ unpack_field cmd 5 7 := unpack_field_nonneg _ _ _
  have h0C : 0 ≤ unpack_field cmd 12 7 := unpack_field_nonneg _ _ _
  have hcB : ¬(unpack_field cmd 5 7 < 0 ∨ (s.regs.length : Int) ≤ unpack_field cmd 5 7) := by
    push_neg
    exact ⟨h0B, by omega⟩
  have hcC : ¬(unpack_field cmd 12 7 < 0 ∨ (s.regs.length : Int) ≤ unpack_field cmd 12 7) := by
    push_neg
    exact ⟨h0C, by omega⟩
  have hcA : ¬(s.regs.getD (unpack_field cmd 5 7).toNat 0 + unpack_field cmd 19 6 < 0 ∨
      (s.mem.length : Int) ≤ s.regs.getD (unpack_field cmd 5 7).toNat 0
        + unpack_field cmd 19 6) := by
    push_neg
    exact ⟨ha0, by omega⟩
  unfold decode_and_execute_one
  rw [hA]
  rw [if_neg (by decide), if_pos rfl, if_neg hcB, if_neg hcC, if_neg hcA]

/-- Successful WRITE_MEM: `mem[C] ← reg[B]`. -/
theorem exec_write_mem (cmd : Int) (s : VMState)
    (hA : Int.land cmd (mask 5 : Int) = 15)
    (hB : (unpack_field cmd 5 7).toNat < s.regs.length)
    (hC : (unpack_field cmd 12 14).toNat < s.mem.length) :
    decode_and_execute_one cmd s =
      (setMem s (unpack_field cmd 12 14).toNat (s.regs.getD (unpack_field cmd 5 7).toNat 0), none) := by
  have h0B : 0 ≤ unpack_field cmd 5 7 := unpack_field_nonneg _ _ _
  have h0C : 0 ≤ unpack_field cmd 12 14 := unpack_field_nonneg _ _ _
  have hcB : ¬(unpack_field cmd 5 7 < 0 ∨ (s.regs.length : Int) ≤ unpack_field cmd 5 7) := by
    push_neg
    exact ⟨h0B, by omega⟩
  have hcC : ¬(unpack_field cmd 12 14 < 0 ∨ (s.mem.length : Int) ≤ unpack_field cmd 12 14) := by
    push_neg
    exact ⟨h0C, by omega⟩
  unfold decode_and_execute_one
  rw [hA]
  rw [if_neg (by decide), if_neg (by decide), if_pos rfl, if_neg hcB, if_neg hcC]

/-- Successful POW with a non-negative exponent operand:
`reg[C] ← mem[reg[E] + D] ^ mem[reg[B]]`, exactly, in arbitrary
precision. -/
theorem exec_pow (cmd : Int) (s : VMState)
    (hA : Int.land cmd (mask 5 : Int) = 22)
    (hB : (unpack_field cmd 5 7).toNat < s.regs.length)
    (hC : (unpack_field cmd 12 7).toNat < s.regs.length)
    (hE : (unpack_field cmd 25 7).toNat < s.regs.length)
    (ha10 : 0 ≤ s.regs.getD (unpack_field cmd 25 7).toNat 0 + unpack_field cmd 19 6)
    (ha11 : (s.regs.getD (unpack_field cmd 25 7).toNat 0 + unpack_field cmd 19 6).toNat
            < s.mem.length)
    (ha20 : 0 ≤ s.regs.getD (unpack_field cmd 5 7).toNat 0)
    (ha21 : (s.regs.getD (unpack_field cmd 5 7).toNat 0).toNat < s.mem.length)
    (hexp : 0 ≤ s.mem.getD (s.regs.getD (unpack_field cmd 5 7).toNat 0).toNat 0) :
    decode_and_execute_one cmd s =
      (setReg s (unpack_field cmd 12 7).toNat ((s.mem.getD (s.regs.getD (unpack_field cmd 25 7).toNat 0 + unpack_field cmd 19 6).toNat 0) ^ (s.mem.getD (s.regs.getD (unpack_field cmd 5 7).toNat 0).toNat 0).toNat), none) := by
  have h0B : 0 ≤ unpack_field cmd 5 7 := unpack_field_nonneg _ _ _
  have h0C : 0 ≤ unpack_field cmd 12 7 := unpack_field_nonneg _ _ _
  have h0E : 0 ≤ unpack_field cmd 25 7 := unpack_field_nonneg _ _ _
  have hcB : ¬(unpack_field cmd 5 7 < 0 ∨ (s.regs.length : Int) ≤ unpack_field cmd 5 7) := by
    push_neg
    exact ⟨h0B, by omega⟩
  have hcC : ¬(unpack_field cmd 12 7 < 0 ∨ (s.regs.length : Int) ≤ unpack_field cmd 12 7) := by
    push_neg
    exact ⟨h0C, by omega⟩
  have hcE : ¬(unpack_field cmd 25 7 < 0 ∨ (s.regs.length : Int) ≤ unpack_field cmd 25 7) := by
    push_neg
    exact ⟨h0E, by omega⟩
  have hc1 : ¬(s.regs.getD (unpack_field cmd 25 7).toNat 0 + unpack_field cmd 19 6 < 0 ∨
      (s.mem.length : Int) ≤ s.regs.getD (unpack_field cmd 25 7).toNat 0
        + unpack_field cmd 19 6) := by
    push_neg
    exact ⟨ha10, by omega⟩
  have hc2 : ¬(s.regs.getD (unpack_field cmd 5 7).toNat 0 < 0 ∨
      (s.mem.length : Int) ≤ s.regs.getD (unpack_field cmd 5 7).toNat 0) := by
    push_neg
    exact ⟨ha20, by omega⟩
  have hcexp : ¬(s.mem.getD (s.regs.getD (unpack_field cmd 5 7).toNat 0).toNat 0 < 0) :=
    not_lt.mpr hexp
  unfold decode_and_execute_one
  rw [hA]
  rw [if_neg (by decide), if_neg (by decide), if_neg (by decide), if_pos rfl]
  rw [if_neg hcB, if_neg hcC, if_neg hcE, if_neg hc1, if_neg hc2, if_neg hcexp]

/-! ## Structural facts about one execution step -/

/-- Every call of `decode_and_execute_one` either performs exactly one
register write, or exactly one memory write, or raises an exception and
returns the state untouched. -/
theorem decode_shape (cmd : Int) (s : VMState) :
    (∃ i v, decode_and_execute_one cmd s = (setReg s i v, none)) ∨
    (∃ i v, decode_and_execute_one cmd s = (setMem s i v, none)) ∨
    (∃ e, decode_and_execute_one cmd s = (s, some e)) := by
  by_cases h13 : Int.land cmd (mask 5 : Int) = 13
  · rw [decode_when_13 cmd s h13]
    split
    · exact Or.inr (Or.inr ⟨_, rfl⟩)
    · exact Or.inl ⟨_, _, rfl⟩
  by_cases h26 : Int.land cmd (mask 5 : Int) = 26
  · rw [decode_when_26 cmd s h26]
    repeat' split
    all_goals
      first
      | exact Or.inl ⟨_, _, rfl⟩
      | exact Or.inr (Or.inl ⟨_, _, rfl⟩)
      | exact Or.inr (Or.inr ⟨_, rfl⟩)
  by_cases h15 : Int.land cmd (mask 5 : Int) = 15
  · rw [decode_when_15 cmd s h15]
    repeat' split
    all_goals
      first
      | exact Or.inl ⟨_, _, rfl⟩
      | exact Or.inr (Or.inl ⟨_, _, rfl⟩)
      | exact Or.inr (Or.inr ⟨_, rfl⟩)
  by_cases h22 : Int.land cmd (mask 5 : Int) = 22
  · rw [decode_when_22 cmd s h22]
    repeat' split
    all_goals
      first
      | exact Or.inl ⟨_, _, rfl⟩
      | exact Or.inr (Or.inl ⟨_, _, rfl⟩)
      | exact Or.inr (Or.inr ⟨_, rfl⟩)
  · rw [decode_when_unknown cmd s h13 h26 h15 h22]
    exact Or.inr (Or.inr ⟨_, rfl⟩)

/-- A raising step leaves the whole state exactly as it was. -/
theorem decode_error_frame (cmd : Int) (s s' : VMState) (e : VMError)
    (h : decode_and_execute_one cmd s = (s', some e)) : s' = s := by
  rcases decode_shape cmd s with ⟨i, v, hs⟩ | ⟨i, v, hs⟩ | ⟨e', hs⟩
  · rw [hs] at h
    simp at h
  · rw [hs] at h
    simp at h
  · rw [hs] at h
    exact (Prod.mk.injEq _ _ _ _ ▸ h).1.symm

/-- One step never changes the program counter, the program length, the
register count or the memory size. -/
theorem decode_dims (cmd : Int) (s : VMState) :
    (decode_and_execute_one cmd s).1.pc = s.pc ∧
    (decode_and_execute_one cmd s).1.program_len = s.program_len ∧
    (decode_and_execute_one cmd s).1.regs.length = s.regs.length ∧
    (decode_and_execute_one cmd s).1.mem.length = s.mem.length := by
  rcases decode_shape cmd s with ⟨i, v, hs⟩ | ⟨i, v, hs⟩ | ⟨e', hs⟩ <;>
    rw [hs] <;> simp [setReg, setMem]

/-- A step that does not raise has had every register index and memory
address it uses pass its bounds check. -/
theorem decode_ok_bounds (cmd : Int) (s : VMState)
    (h : (decode_and_execute_one cmd s).2 = none) : boundsOK cmd s := by
  unfold boundsOK opcodeOf
  by_cases h13 : Int.land cmd (mask 5 : Int) = 13
  · rw [h13, if_pos rfl]
    rw [decode_when_13 cmd s h13] at h
    by_cases hc : unpack_field cmd 5 7 < 0 ∨ (s.regs.length : Int) ≤ unpack_field cmd 5 7
    · rw [if_pos hc] at h
      simp at h
    · push_neg at hc
      exact hc
  by_cases h26 : Int.land cmd (mask 5 : Int) = 26
  · rw [h26, if_neg (by decide), if_pos rfl]
    rw [decode_when_26 cmd s h26] at h
    by_cases hc1 : unpack_field cmd 5 7 < 0 ∨ (s.regs.length : Int) ≤ unpack_field cmd 5 7
    · rw [if_pos hc1] at h
      simp at h
    rw [if_neg hc1] at h
    by_cases hc2 : unpack_field cmd 12 7 < 0 ∨ (s.regs.length : Int) ≤ unpack_field cmd 12 7
    · rw [if_pos hc2] at h
      simp at h
    rw [if_neg hc2] at h
    by_cases hc3 : s.regs.getD (unpack_field cmd 5 7).toNat 0 + unpack_field cmd 19 6 < 0 ∨
        (s.mem.length : Int) ≤ s.regs.getD (unpack_field cmd 5 7).toNat 0 + unpack_field cmd 19 6
    · rw [if_pos hc3] at h
      simp at h
    push_neg at hc1 hc2 hc3
    exact ⟨hc1, hc2, hc3⟩
  by_cases h15 : Int.land cmd (mask 5 : Int) = 15
  · rw [h15, if_neg (by decide), if_neg (by decide), if_pos rfl]
    rw [decode_when_15 cmd s h15] at h
    by_cases hc1 : unpack_field cmd 5 7 < 0 ∨ (s.regs.length : Int) ≤ unpack_field cmd 5 7
    · rw [if_pos hc1] at h
      simp at h
    rw [if_neg hc1] at h
    by_cases hc2 : unpack_field cmd 12 14 < 0 ∨ (s.mem.length : Int) ≤ unpack_field cmd 12 14
    · rw [if_pos hc2] at h
      simp at h
    push_neg at hc1 hc2
    exact ⟨hc1, hc2⟩
  by_cases h22 : Int.land cmd (mask 5 : Int) = 22
  · rw [h22, if_neg (by decide), if_neg (by decide), if_neg (by decide), if_pos rfl]
    rw [decode_when_22 cmd s h22] at h
    by_cases hc1 : unpack_field cmd 5 7 < 0 ∨ (s.regs.length : Int) ≤ unpack_field cmd 5 7
    · rw [if_pos hc1] at h
      simp at h
    rw [if_neg hc1] at h
    by_cases hc2 : unpack_field cmd 12 7 < 0 ∨ (s.regs.length : Int) ≤ unpack_field cmd 12 7
    · rw [if_pos hc2] at h
      simp at h
    rw [if_neg hc2] at h
    by_cases hc3 : unpack_field cmd 25 7 < 0 ∨ (s.regs.length : Int) ≤ unpack_field cmd 25 7
    · rw [if_pos hc3] at h
      simp at h
    rw [if_neg hc3] at h
    by_cases hc4 : s.regs.getD (unpack_field cmd 25 7).toNat 0 + unpack_field cmd 19 6 < 0 ∨
        (s.mem.length : Int) ≤ s.regs.getD (unpack_field cmd 25 7).toNat 0 + unpack_field cmd 19 6
    · rw [if_pos hc4] at h
      simp at h
    rw [if_neg hc4] at h
    by_cases hc5 : s.regs.getD (unpack_field cmd 5 7).toNat 0 < 0 ∨
        (s.mem.length : Int) ≤ s.regs.getD (unpack_field cmd 5 7).toNat 0
    · rw [if_pos hc5] at h
      simp at h
    push_neg at hc1 hc2 hc3 hc4 hc5
    exact ⟨hc1, hc2, hc3, hc4, hc5⟩
  · rw [if_neg h13, if_neg h26, if_neg h15, if_neg h22]
    trivial

/-- A bounds violation on a known opcode raises an out-of-bounds error,
with the state returned untouched. -/
theorem decode_violation (cmd : Int) (s : VMState)
    (hk : knownOpcode cmd) (hn : ¬ boundsOK cmd s) :
    ∃ w a, decode_and_execute_one cmd s = (s, some (.outOfBounds w a)) := by
  unfold boundsOK opcodeOf at hn
  by_cases h13 : Int.land cmd (mask 5 : Int) = 13
  · rw [h13, if_pos rfl] at hn
    rw [decode_when_13 cmd s h13]
    rw [if_pos (by dsimp only at hn; omega)]
    exact ⟨_, _, rfl⟩
  by_cases h26 : Int.land cmd (mask 5 : Int) = 26
  · rw [h26, if_neg (by decide), if_pos rfl] at hn
    dsimp only at hn
    rw [decode_when_26 cmd s h26]
    by_cases hc1 : unpack_field cmd 5 7 < 0 ∨ (s.regs.length : Int) ≤ unpack_field cmd 5 7
    · rw [if_pos hc1]
      exact ⟨_, _, rfl⟩
    rw [if_neg hc1]
    by_cases hc2 : unpack_field cmd 12 7 < 0 ∨ (s.regs.length : Int) ≤ unpack_field cmd 12 7
    · rw [if_pos hc2]
      exact ⟨_, _, rfl⟩
    rw [if_neg hc2]
    rw [if_pos (by omega)]
    exact ⟨_, _, rfl⟩
  by_cases h15 : Int.land cmd (mask 5 : Int) = 15
  · rw [h15, if_neg (by decide), if_neg (by decide), if_pos rfl] at hn
    dsimp only at hn
    rw [decode_when_15 cmd s h15]
    by_cases hc1 : unpack_field cmd 5 7 < 0 ∨ (s.regs.length : Int) ≤ unpack_field cmd 5 7
    · rw [if_pos hc1]
      exact ⟨_, _, rfl⟩
    rw [if_neg hc1]
    rw [if_pos (by omega)]
    exact ⟨_, _, rfl⟩
  by_cases h22 : Int.land cmd (mask 5 : Int) = 22
  · rw [h22, if_neg (by decide), if_neg (by decide), if_neg (by decide), if_pos rfl] at hn
    dsimp only at hn
    rw [decode_when_22 cmd s h22]
    by_cases hc1 : unpack_field cmd 5 7 < 0 ∨ (s.regs.length : Int) ≤ unpack_field cmd 5 7
    · rw [if_pos hc1]
      exact ⟨_, _, rfl⟩
    rw [if_neg hc1]
    by_cases hc2 : unpack_field cmd 12 7 < 0 ∨ (s.regs.length : Int) ≤ unpack_field cmd 12 7
    · rw [if_pos hc2]
      exact ⟨_, _, rfl⟩
    rw [if_neg hc2]
    by_cases hc3 : unpack_field cmd 25 7 < 0 ∨ (s.regs.length : Int) ≤ unpack_field cmd 25 7
    · rw [if_pos hc3]
      exact ⟨_, _, rfl⟩
    rw [if_neg hc3]
    by_cases hc4 : s.regs.getD (unpack_field cmd 25 7).toNat 0 + unpack_field cmd 19 6 < 0 ∨
        (s.mem.length : Int) ≤ s.regs.getD (unpack_field cmd 25 7).toNat 0 + unpack_field cmd 19 6
    · rw [if_pos hc4]
      exact ⟨_, _, rfl⟩
    rw [if_neg hc4]
    rw [if_pos (by omega)]
    exact ⟨_, _, rfl⟩
  · exfalso
    unfold knownOpcode opcodeOf at hk
    rcases hk with h | h | h | h
    exacts [h13 h, h26 h, h15 h, h22 h]

end UVM

namespace UVM

theorem runLoop_halt (fuel : Nat) (s : VMState) (h : ¬ s.pc < s.program_len) :
    runLoop fuel s = (s, none) := by
  cases fuel with
  | zero => rfl
  | succ n =>
    rw [runLoop, if_neg h]

theorem runLoop_step (fuel : Nat) (s s' : VMState)
    (h : s.pc < s.program_len)
    (hd : decode_and_execute_one (s.mem.getD s.pc 0) { s with pc := s.pc + 1 } = (s', none)) :
    runLoop (fuel + 1) s = runLoop fuel s' := by
  rw [runLoop, if_pos h]
  dsimp only
  rw [hd]

theorem runLoop_stop (fuel : Nat) (s s' : VMState) (e : VMError)
    (h : s.pc < s.program_len)
    (hd : decode_and_execute_one (s.mem.getD s.pc 0) { s with pc := s.pc + 1 } = (s', some e)) :
    runLoop (fuel + 1) s = (s', some e) := by
  rw [runLoop, if_pos h]
  dsimp only
  rw [hd]


theorem getD_nonneg {l : List Int} (h : ∀ x ∈ l, 0 ≤ x) (i : Nat) : 0 ≤ l.getD i 0 := by
  induction l generalizing i with
  | nil => cases i <;> exact le_refl 0
  | cons a as ih =>
    cases i with
    | zero => exact h a (List.mem_cons_self a as)
    | succ j => exact ih (fun x hx => h x (List.mem_cons_of_mem a hx)) j

theorem nonneg_setReg (s : VMState) (i : Nat) (v : Int)
    (hs : nonnegState s) (hv : 0 ≤ v) : nonnegState (setReg s i v) := by
  refine ⟨fun x hx => ?_, hs.2⟩
  rcases List.mem_or_eq_of_mem_set hx with hx' | rfl
  · exact hs.1 x hx'
  · exact hv

theorem nonneg_setMem (s : VMState) (i : Nat) (v : Int)
    (hs : nonnegState s) (hv : 0 ≤ v) : nonnegState (setMem s i v) := by
  refine ⟨hs.1, fun x hx => ?_⟩
  rcases List.mem_or_eq_of_mem_set hx with hx' | rfl
  · exact hs.2 x hx'
  · exact hv

theorem decode_nonneg (cmd : Int) (s : VMState) (hs : nonnegState s) :
    nonnegState (decode_and_execute_one cmd s).1 ∧
    (decode_and_execute_one cmd s).2 ≠ some VMError.zeroDivision := by
  by_cases h13 : Int.land cmd (mask 5 : Int) = 13
  · rw [decode_when_13 cmd s h13]
    split
    · exact ⟨hs, by simp⟩
    · exact ⟨nonneg_setReg _ _ _ hs (unpack_field_nonneg _ _ _), by simp⟩
  by_cases h26 : Int.land cmd (mask 5 : Int) = 26
  · rw [decode_when_26 cmd s h26]
    repeat' split
    all_goals
      first
      | exact ⟨hs, by simp⟩
      | exact ⟨nonneg_setReg _ _ _ hs (getD_nonneg hs.2 _), by simp⟩
  by_cases h15 : Int.land cmd (mask 5 : Int) = 15
  · rw [decode_when_15 cmd s h15]
    repeat' split
    all_goals
      first
      | exact ⟨hs, by simp⟩
      | exact ⟨nonneg_setMem _ _ _ hs (getD_nonneg hs.1 _), by simp⟩
  by_cases h22 : Int.land cmd (mask 5 : Int) = 22
  · rw [decode_when_22 cmd s h22]
    have hexp : 0 ≤ s.mem.getD (s.regs.getD (unpack_field cmd 5 7).toNat 0).toNat 0 :=
      getD_nonneg hs.2 _
    have hbase : 0 ≤ s.mem.getD (s.regs.getD (unpack_field cmd 25 7).toNat 0 + unpack_field cmd 19 6).toNat 0 :=
      getD_nonneg hs.2 _
    repeat' split
    all_goals
      first
      | (rename_i hneg hlast
         exact absurd hneg (not_lt.mpr hexp))
      | exact ⟨hs, by simp⟩
      | exact ⟨nonneg_setReg _ _ _ hs (pow_nonneg hbase _), by simp⟩
  · rw [decode_when_unknown cmd s h13 h26 h15 h22]
    exact ⟨hs, by simp⟩


theorem runLoop_nonneg (fuel : Nat) (s : VMState) (hs : nonnegState s) :
    nonnegState (runLoop fuel s).1 ∧ (runLoop fuel s).2 ≠ some VMError.zeroDivision := by
  induction fuel generalizing s with
  | zero => exact ⟨hs, by simp [runLoop]⟩
  | succ n ih =>
    by_cases h : s.pc < s.program_len
    · rcases hd : decode_and_execute_one (s.mem.getD s.pc 0) { s with pc := s.pc + 1 } with ⟨s2, e⟩
      have hstep := decode_nonneg (s.mem.getD s.pc 0) { s with pc := s.pc + 1 } hs
      rw [hd] at hstep
      cases e with
      | none =>
        rw [runLoop_step n s s2 h hd]
        exact ih s2 hstep.1
      | some e =>
        rw [runLoop_stop n s s2 e h hd]
        exact hstep
    · rw [runLoop_halt _ s h]
      exact ⟨hs, by simp⟩

theorem runLoop_pc_min (fuel : Nat) (s : VMState) (hpc : s.pc ≤ s.program_len)
    (hok : (runLoop fuel s).2 = none) :
    (runLoop fuel s).1.pc = min (s.pc + fuel) s.program_len ∧
    (runLoop fuel s).1.program_len = s.program_len := by
  induction fuel generalizing s with
  | zero =>
    refine ⟨?_, rfl⟩
    show s.pc = _
    omega
  | succ n ih =>
    by_cases h : s.pc < s.program_len
    · rcases hd : decode_and_execute_one (s.mem.getD s.pc 0) { s with pc := s.pc + 1 } with ⟨s2, e⟩
      have hdims := decode_dims (s.mem.getD s.pc 0) { s with pc := s.pc + 1 }
      rw [hd] at hdims
      dsimp only at hdims
      cases e with
      | none =>
        rw [runLoop_step n s s2 h hd] at hok ⊢
        have h2 := ih s2 (by omega) hok
        constructor
        · rw [h2.1]
          omega
        · rw [h2.2]
          exact hdims.2.1
      | some e =>
        rw [runLoop_stop n s s2 e h hd] at hok
        simp at hok
    · rw [runLoop_halt _ s h]
      exact ⟨by show s.pc = _; omega, rfl⟩

theorem runLoopTrace_fst (fuel : Nat) (s : VMState) :
    (runLoopTrace fuel s).1 = runLoop fuel s := by
  induction fuel generalizing s with
  | zero => rfl
  | succ n ih =>
    by_cases h : s.pc < s.program_len
    · rcases hd : decode_and_execute_one (s.mem.getD s.pc 0) { s with pc := s.pc + 1 } with ⟨s2, e⟩
      cases e with
      | none =>
        rw [runLoopTrace, if_pos h]
        dsimp only
        rw [hd]
        dsimp only
        rw [runLoop_step n s s2 h hd]
        exact ih s2
      | some e =>
        rw [runLoopTrace, if_pos h]
        dsimp only
        rw [hd]
        dsimp only
        rw [runLoop_stop n s s2 e h hd]
    · rw [runLoopTrace, if_neg h, runLoop_halt _ s h]

theorem runLoop_trace_range (fuel : Nat) (s : VMState) (hpc : s.pc ≤ s.program_len)
    (hfuel : s.program_len - s.pc ≤ fuel)
    (hok : (runLoop fuel s).2 = none) :
    (runLoopTrace fuel s).2 = List.range' s.pc (s.program_len - s.pc) := by
  induction fuel generalizing s with
  | zero =>
    have h0 : s.program_len - s.pc = 0 := by omega
    rw [h0]
    rfl
  | succ n ih =>
    by_cases h : s.pc < s.program_len
    · rcases hd : decode_and_execute_one (s.mem.getD s.pc 0) { s with pc := s.pc + 1 } with ⟨s2, e⟩
      have hdims := decode_dims (s.mem.getD s.pc 0) { s with pc := s.pc + 1 }
      rw [hd] at hdims
      dsimp only at hdims
      cases e with
      | none =>
        rw [runLoopTrace, if_pos h]
        dsimp only
        rw [hd]
        dsimp only
        rw [runLoop_step n s s2 h hd] at hok
        have htr := ih s2 (by omega) (by omega) hok
        rw [htr, hdims.1, hdims.2.1]
        rw [show s.program_len - s.pc = (s.program_len - (s.pc + 1)) + 1 by omega]
        rfl
      | some e =>
        rw [runLoop_stop n s s2 e h hd] at hok
        simp at hok
    · have h0 : s.program_len - s.pc = 0 := by omega
      rw [runLoopTrace, if_neg h, h0]
      rfl

theorem runLoop_add (a b : Nat) (s : VMState) :
    runLoop (a + b) s =
      (if (runLoop a s).2 = none then runLoop b (runLoop a s).1 else runLoop a s) := by
  induction a generalizing s with
  | zero =>
    rw [Nat.zero_add]
    simp [runLoop]
  | succ a ih =>
    by_cases h : s.pc < s.program_len
    · rcases hd : decode_and_execute_one (s.mem.getD s.pc 0) { s with pc := s.pc + 1 } with ⟨s2, e⟩
      cases e with
      | none =>
        rw [show a + 1 + b = (a + b) + 1 by omega]
        rw [runLoop_step (a + b) s s2 h hd, runLoop_step a s s2 h hd]
        exact ih s2
      | some e =>
        rw [show a + 1 + b = (a + b) + 1 by omega]
        rw [runLoop_stop (a + b) s s2 e h hd, runLoop_stop a s s2 e h hd]
        simp
    · rw [runLoop_halt (a + 1 + b) s h, runLoop_halt (a + 1) s h]
      simp [runLoop_halt b s h]

end UVM

namespace UVM

/-! ## Scenario A: concrete end-to-end execution -/

theorem sAMem0_len : sAMem0.length = 65536 := by
  unfold sAMem0
  rw [List.length_set, List.length_set, List.length_set, List.length_set,
    List.length_replicate]

theorem sAfetch0 : sAMem0.getD 0 0 = 503821 := by
  unfold sAMem0
  rw [getD_set_of_ne _ _ (by decide), getD_set_of_ne _ _ (by decide),
    getD_set_of_ne _ _ (by decide),
    getD_set_self _ (by rw [List.length_replicate]; decide)]

theorem sAfetch1 : sAMem0.getD 1 0 = 409615 := by
  unfold sAMem0
  rw [getD_set_of_ne _ _ (by decide), getD_set_of_ne _ _ (by decide),
    getD_set_self _ (by rw [List.length_set, List.length_replicate]; decide)]

theorem sAfetch2 : sAMem0.getD 2 0 = 409677 := by
  unfold sAMem0
  rw [getD_set_of_ne _ _ (by decide),
    getD_set_self _ (by rw [List.length_set, List.length_set, List.length_replicate]; decide)]

theorem sAfetch3 : sAMem0.getD 3 0 = 4186 := by
  unfold sAMem0
  rw [getD_set_self _ (by rw [List.length_set, List.length_set, List.length_set,
    List.length_replicate]; decide)]

theorem sAstep1 :
    decode_and_execute_one 503821 ⟨sARegs0, sAMem0, 1, 4⟩ =
      (⟨sARegs0.set 0 123, sAMem0, 1, 4⟩, none) := by
  have h := exec_load_const 503821 ⟨sARegs0, sAMem0, 1, 4⟩ (by decide)
    (by show (unpack_field 503821 5 7).toNat < sARegs0.length
        simp [sARegs0]
        decide)
  rw [show unpack_field 503821 5 7 = 0 from by decide,
    show unpack_field 503821 12 11 = 123 from by decide] at h
  exact h

theorem sAstep2 :
    decode_and_execute_one 409615 ⟨sARegs0.set 0 123, sAMem0, 2, 4⟩ =
      (⟨sARegs0.set 0 123, sAMem0.set 100 123, 2, 4⟩, none) := by
  have h := exec_write_mem 409615 ⟨sARegs0.set 0 123, sAMem0, 2, 4⟩ (by decide)
    (by show (unpack_field 409615 5 7).toNat < (sARegs0.set 0 123).length
        simp [sARegs0]
        decide)
    (by show (unpack_field 409615 12 14).toNat < sAMem0.length
        rw [sAMem0_len]
        decide)
  rw [show unpack_field 409615 5 7 = 0 from by decide,
    show unpack_field 409615 12 14 = 100 from by decide,
    show ((sARegs0.set 0 123).getD (0 : Int).toNat 0) = 123 from
      getD_set_self _ (by simp [sARegs0])] at h
  exact h

theorem sAstep3 :
    decode_and_execute_one 409677 ⟨sARegs0.set 0 123, sAMem0.set 100 123, 3, 4⟩ =
      (⟨(sARegs0.set 0 123).set 2 100, sAMem0.set 100 123, 3, 4⟩, none) := by
  have h := exec_load_const 409677 ⟨sARegs0.set 0 123, sAMem0.set 100 123, 3, 4⟩ (by decide)
    (by show (unpack_field 409677 5 7).toNat < (sARegs0.set 0 123).length
        simp [sARegs0]
        decide)
  rw [show unpack_field 409677 5 7 = 2 from by decide,
    show unpack_field 409677 12 11 = 100 from by decide] at h
  exact h

theorem sAstep4 :
    decode_and_execute_one 4186
        ⟨(sARegs0.set 0 123).set 2 100, sAMem0.set 100 123, 4, 4⟩ =
      (⟨((sARegs0.set 0 123).set 2 100).set 1 123, sAMem0.set 100 123, 4, 4⟩, none) := by
  have hreg2 : ((sARegs0.set 0 123).set 2 100).getD (2 : Int).toNat 0 = 100 :=
    getD_set_self _ (by simp [sARegs0])
  have h := exec_read_mem 4186 ⟨(sARegs0.set 0 123).set 2 100, sAMem0.set 100 123, 4, 4⟩
    (by decide)
    (by show (unpack_field 4186 5 7).toNat < ((sARegs0.set 0 123).set 2 100).length
        simp [sARegs0]
        decide)
    (by show (unpack_field 4186 12 7).toNat < ((sARegs0.set 0 123).set 2 100).length
        simp [sARegs0]
        decide)
    (by show (0 : Int) ≤ _
        rw [show unpack_field 4186 5 7 = 2 from by decide,
          show unpack_field 4186 19 6 = 0 from by decide, hreg2]
        decide)
    (by show Int.toNat _ < (sAMem0.set 100 123).length
        rw [show unpack_field 4186 5 7 = 2 from by decide,
          show unpack_field 4186 19 6 = 0 from by decide, hreg2]
        rw [List.length_set, sAMem0_len]
        decide)
  rw [show unpack_field 4186 5 7 = 2 from by decide,
    show unpack_field 4186 12 7 = 1 from by decide,
    show unpack_field 4186 19 6 = 0 from by decide, hreg2,
    show ((sAMem0.set 100 123).getD ((100 : Int) + 0).toNat 0) = 123 from
      getD_set_self _ (by rw [sAMem0_len]; decide)] at h
  exact h

theorem sAloop :
    runLoop 4 ⟨sARegs0, sAMem0, 0, 4⟩ =
      (⟨((sARegs0.set 0 123).set 2 100).set 1 123, sAMem0.set 100 123, 4, 4⟩, none) := by
  have hd0 : decode_and_execute_one
      ((⟨sARegs0, sAMem0, 0, 4⟩ : VMState).mem.getD 0 0) ⟨sARegs0, sAMem0, 0 + 1, 4⟩ =
      (⟨sARegs0.set 0 123, sAMem0, 1, 4⟩, none) := by
    show decode_and_execute_one (sAMem0.getD 0 0) _ = _
    rw [sAfetch0]
    exact sAstep1
  have hd1 : decode_and_execute_one
      ((⟨sARegs0.set 0 123, sAMem0, 1, 4⟩ : VMState).mem.getD 1 0)
      ⟨sARegs0.set 0 123, sAMem0, 1 + 1, 4⟩ =
      (⟨sARegs0.set 0 123, sAMem0.set 100 123, 2, 4⟩, none) := by
    show decode_and_execute_one (sAMem0.getD 1 0) _ = _
    rw [sAfetch1]
    exact sAstep2
  have hd2 : decode_and_execute_one
      ((⟨sARegs0.set 0 123, sAMem0.set 100 123, 2, 4⟩ : VMState).mem.getD 2 0)
      ⟨sARegs0.set 0 123, sAMem0.set 100 123, 2 + 1, 4⟩ =
      (⟨(sARegs0.set 0 123).set 2 100, sAMem0.set 100 123, 3, 4⟩, none) := by
    show decode_and_execute_one ((sAMem0.set 100 123).getD 2 0) _ = _
    rw [getD_set_of_ne _ _ (by decide), sAfetch2]
    exact sAstep3
  have hd3 : decode_and_execute_one
      ((⟨(sARegs0.set 0 123).set 2 100, sAMem0.set 100 123, 3, 4⟩ : VMState).mem.getD 3 0)
      ⟨(sARegs0.set 0 123).set 2 100, sAMem0.set 100 123, 3 + 1, 4⟩ =
      (⟨((sARegs0.set 0 123).set 2 100).set 1 123, sAMem0.set 100 123, 4, 4⟩, none) := by
    show decode_and_execute_one ((sAMem0.set 100 123).getD 3 0) _ = _
    rw [getD_set_of_ne _ _ (by decide), sAfetch3]
    exact sAstep4
  calc runLoop 4 ⟨sARegs0, sAMem0, 0, 4⟩
      = runLoop 3 ⟨sARegs0.set 0 123, sAMem0, 1, 4⟩ :=
        runLoop_step 3 _ _ (by decide) hd0
    _ = runLoop 2 ⟨sARegs0.set 0 123, sAMem0.set 100 123, 2, 4⟩ :=
        runLoop_step 2 _ _ (by decide) hd1
    _ = runLoop 1 ⟨(sARegs0.set 0 123).set 2 100, sAMem0.set 100 123, 3, 4⟩ :=
        runLoop_step 1 _ _ (by decide) hd2
    _ = runLoop 0 ⟨((sARegs0.set 0 123).set 2 100).set 1 123, sAMem0.set 100 123, 4, 4⟩ :=
        runLoop_step 0 _ _ (by decide) hd3
    _ = (⟨((sARegs0.set 0 123).set 2 100).set 1 123, sAMem0.set 100 123, 4, 4⟩, none) := rfl

theorem sArun :
    run_binary_bytes sABytes 65536 32 =
      .ok ⟨((sARegs0.set 0 123).set 2 100).set 1 123, sAMem0.set 100 123, 4, 4⟩ := by
  unfold run_binary_bytes
  rw [if_neg (by decide)]
  dsimp only
  rw [show wordsOfBytes sABytes = sAWords from by decide]
  rw [if_neg (by decide)]
  rw [show loadedState sAWords 65536 32 = ⟨sARegs0, sAMem0, 0, 4⟩ from rfl]
  rw [show sAWords.length = 4 from rfl]
  rw [sAloop]

end UVM


namespace UVM


theorem list_len_four {α : Type _} {l : List α} (h : l.length = 4) :
    ∃ a b c d, l = [a, b, c, d] := by
  rcases l with _ | ⟨a, t⟩
  · simp at h
  · rw [List.length_cons] at h
    obtain ⟨b, c, d, rfl⟩ := List.length_eq_three.mp (show t.length = 3 by omega)
    exact ⟨a, b, c, d, rfl⟩

theorem rowToIR_cases (idx : Nat) (first : String) (args : List String) :
    ((∃ ir, rowToIR idx (first :: args) = .ok ir) ∧ rowValid (first :: args)) ∨
    ((∃ msg, rowToIR idx (first :: args) = .error (.validation idx msg)) ∧
      ¬ rowValid (first :: args)) := by
  by_cases hcmd1 : upStr first = "LOAD_CONST"
  · by_cases hlen : (first :: args).length = 3
    case neg =>
      right
      constructor
      · exact ⟨_, by rw [rowToIR]; rw [if_pos hcmd1, if_pos hlen]⟩
      · intro hv
        rcases hv with ⟨h, h2, h3⟩ | ⟨h, h2, h3⟩ | ⟨h, h2, h3⟩ | ⟨h, h2, h3⟩
        · exact hlen (by rw [List.length_cons, h2])
        · rw [hcmd1] at h
          exact absurd h (by decide)
        · rw [hcmd1] at h
          exact absurd h (by decide)
        · rw [hcmd1] at h
          exact absurd h (by decide)
    case pos =>
      rw [List.length_cons] at hlen
      have hal : args.length = 2 := by omega
      obtain ⟨a1, a2, rfl⟩ := List.length_eq_two.mp hal
      rcases hp1 : parseInt a1 with _ | B1
      · right
        constructor
        · exact ⟨_, by
            rw [rowToIR]
            rw [if_pos hcmd1, if_neg (not_not_intro (by simp))]
            simp only [List.getD_cons_succ, List.getD_cons_zero]
            rw [hp1]⟩
        · intro hv
          rcases hv with ⟨h, h2, h3⟩ | ⟨h, h2, h3⟩ | ⟨h, h2, h3⟩ | ⟨h, h2, h3⟩
          · have hx := h3 a1 (by simp)
            rw [hp1] at hx
            simp at hx
          · rw [hcmd1] at h
            exact absurd h (by decide)
          · rw [hcmd1] at h
            exact absurd h (by decide)
          · rw [hcmd1] at h
            exact absurd h (by decide)
      rcases hp2 : parseInt a2 with _ | B2
      · right
        constructor
        · exact ⟨_, by
            rw [rowToIR]
            rw [if_pos hcmd1, if_neg (not_not_intro (by simp))]
            simp only [List.getD_cons_succ, List.getD_cons_zero]
            rw [hp1, hp2]⟩
        · intro hv
          rcases hv with ⟨h, h2, h3⟩ | ⟨h, h2, h3⟩ | ⟨h, h2, h3⟩ | ⟨h, h2, h3⟩
          · have hx := h3 a2 (by simp)
            rw [hp2] at hx
            simp at hx
          · rw [hcmd1] at h
            exact absurd h (by decide)
          · rw [hcmd1] at h
            exact absurd h (by decide)
          · rw [hcmd1] at h
            exact absurd h (by decide)
      · left
        constructor
        · exact ⟨_, by
            rw [rowToIR]
            rw [if_pos hcmd1, if_neg (not_not_intro (by simp))]
            simp only [List.getD_cons_succ, List.getD_cons_zero]
            rw [hp1, hp2]⟩
        · exact Or.inl ⟨hcmd1, rfl, by simp [List.forall_mem_cons, hp1, hp2]⟩
  by_cases hcmd2 : upStr first = "READ_MEM"
  · by_cases hlen : (first :: args).length = 4
    case neg =>
      right
      constructor
      · exact ⟨_, by rw [rowToIR]; rw [if_neg hcmd1, if_pos hcmd2, if_pos hlen]⟩
      · intro hv
        rcases hv with ⟨h, h2, h3⟩ | ⟨h, h2, h3⟩ | ⟨h, h2, h3⟩ | ⟨h, h2, h3⟩
        · rw [hcmd2] at h
          exact absurd h (by decide)
        · exact hlen (by rw [List.length_cons, h2])
        · rw [hcmd2] at h
          exact absurd h (by decide)
        · rw [hcmd2] at h
          exact absurd h (by decide)
    case pos =>
      rw [List.length_cons] at hlen
      have hal : args.length = 3 := by omega
      obtain ⟨a1, a2, a3, rfl⟩ := List.length_eq_three.mp hal
      rcases hp1 : parseInt a1 with _ | B1
      · right
        constructor
        · exact ⟨_, by
            rw [rowToIR]
            rw [if_neg hcmd1, if_pos hcmd2, if_neg (not_not_intro (by simp))]
            simp only [List.getD_cons_succ, List.getD_cons_zero]
            rw [hp1]⟩
        · intro hv
          rcases hv with ⟨h, h2, h3⟩ | ⟨h, h2, h3⟩ | ⟨h, h2, h3⟩ | ⟨h, h2, h3⟩
          · rw [hcmd2] at h
            exact absurd h (by decide)
          · have hx := h3 a1 (by simp)
            rw [hp1] at hx
            simp at hx
          · rw [hcmd2] at h
            exact absurd h (by decide)
          · rw [hcmd2] at h
            exact absurd h (by decide)
      rcases hp2 : parseInt a2 with _ | B2
      · right
        constructor
        · exact ⟨_, by
            rw [rowToIR]
            rw [if_neg hcmd1, if_pos hcmd2, if_neg (not_not_intro (by simp))]
            simp only [List.getD_cons_succ, List.getD_cons_zero]
            rw [hp1, hp2]⟩
        · intro hv
          rcases hv with ⟨h, h2, h3⟩ | ⟨h, h2, h3⟩ | ⟨h, h2, h3⟩ | ⟨h, h2, h3⟩
          · rw [hcmd2] at h
            exact absurd h (by decide)
          · have hx := h3 a2 (by simp)
            rw [hp2] at hx
            simp at hx
          · rw [hcmd2] at h
            exact absurd h (by decide)
          · rw [hcmd2] at h
            exact absurd h (by decide)
      rcases hp3 : parseInt a3 with _ | B3
      · right
        constructor
        · exact ⟨_, by
            rw [rowToIR]
            rw [if_neg hcmd1, if_pos hcmd2, if_neg (not_not_intro (by simp))]
            simp only [List.getD_cons_succ, List.getD_cons_zero]
            rw [hp1, hp2, hp3]⟩
        · intro hv
          rcases hv with ⟨h, h2, h3⟩ | ⟨h, h2, h3⟩ | ⟨h, h2, h3⟩ | ⟨h, h2, h3⟩
          · rw [hcmd2] at h
            exact absurd h (by decide)
          · have hx := h3 a3 (by simp)
            rw [hp3] at hx
            simp at hx
          · rw [hcmd2] at h
            exact absurd h (by decide)
          · rw [hcmd2] at h
            exact absurd h (by decide)
      · left
        constructor
        · exact ⟨_, by
            rw [rowToIR]
            rw [if_neg hcmd1, if_pos hcmd2, if_neg (not_not_intro (by simp))]
            simp only [List.getD_cons_succ, List.getD_cons_zero]
            rw [hp1, hp2, hp3]⟩
        · exact Or.inr (Or.inl ⟨hcmd2, rfl, by simp [List.forall_mem_cons, hp1, hp2, hp3]⟩)
  by_cases hcmd3 : upStr first = "WRITE_MEM"
  · by_cases hlen : (first :: args).length = 3
    case neg =>
      right
      constructor
      · exact ⟨_, by rw [rowToIR]; rw [if_neg hcmd1, if_neg hcmd2, if_pos hcmd3, if_pos hlen]⟩
      · intro hv
        rcases hv with ⟨h, h2, h3⟩ | ⟨h, h2, h3⟩ | ⟨h, h2, h3⟩ | ⟨h, h2, h3⟩
        · rw [hcmd3] at h
          exact absurd h (by decide)
        · rw [hcmd3] at h
          exact absurd h (by decide)
        · exact hlen (by rw [List.length_cons, h2])
        · rw [hcmd3] at h
          exact absurd h (by decide)
    case pos =>
      rw [List.length_cons] at hlen
      have hal : args.length = 2 := by omega
      obtain ⟨a1, a2, rfl⟩ := List.length_eq_two.mp hal
      rcases hp1 : parseInt a1 with _ | B1
      · right
        constructor
        · exact ⟨_, by
            rw [rowToIR]
            rw [if_neg hcmd1, if_neg hcmd2, if_pos hcmd3, if_neg (not_not_intro (by simp))]
            simp only [List.getD_cons_succ, List.getD_cons_zero]
            rw [hp1]⟩
        · intro hv
          rcases hv with ⟨h, h2, h3⟩ | ⟨h, h2, h3⟩ | ⟨h, h2, h3⟩ | ⟨h, h2, h3⟩
          · rw [hcmd3] at h
            exact absurd h (by decide)
          · rw [hcmd3] at h
            exact absurd h (by decide)
          · have hx := h3 a1 (by simp)
            rw [hp1] at hx
            simp at hx
          · rw [hcmd3] at h
            exact absurd h (by decide)
      rcases hp2 : parseInt a2 with _ | B2
      · right
        constructor
        · exact ⟨_, by
            rw [rowToIR]
            rw [if_neg hcmd1, if_neg hcmd2, if_pos hcmd3, if_neg (not_not_intro (by simp))]
            simp only [List.getD_cons_succ, List.getD_cons_zero]
            rw [hp1, hp2]⟩
        · intro hv
          rcases hv with ⟨h, h2, h3⟩ | ⟨h, h2, h3⟩ | ⟨h, h2, h3⟩ | ⟨h, h2, h3⟩
          · rw [hcmd3] at h
            exact absurd h (by decide)
          · rw [hcmd3] at h
            exact absurd h (by decide)
          · have hx := h3 a2 (by simp)
            rw [hp2] at hx
            simp at hx
          · rw [hcmd3] at h
            exact absurd h (by decide)
      · left
        constructor
        · exact ⟨_, by
            rw [rowToIR]
            rw [if_neg hcmd1, if_neg hcmd2, if_pos hcmd3, if_neg (not_not_intro (by simp))]
            simp only [List.getD_cons_succ, List.getD_cons_zero]
            rw [hp1, hp2]⟩
        · exact Or.inr (Or.inr (Or.inl ⟨hcmd3, rfl, by simp [List.forall_mem_cons, hp1, hp2]⟩))
  by_cases hcmd4 : upStr first = "POW"
  · by_cases hlen : (first :: args).length = 5
    case neg =>
      right
      constructor
      · exact ⟨_, by rw [rowToIR]; rw [if_neg hcmd1, if_neg hcmd2, if_neg hcmd3, if_pos hcmd4, if_pos hlen]⟩
      · intro hv
        rcases hv with ⟨h, h2, h3⟩ | ⟨h, h2, h3⟩ | ⟨h, h2, h3⟩ | ⟨h, h2, h3⟩
        · rw [hcmd4] at h
          exact absurd h (by decide)
        · rw [hcmd4] at h
          exact absurd h (by decide)
        · rw [hcmd4] at h
          exact absurd h (by decide)
        · exact hlen (by rw [List.length_cons, h2])
    case pos =>
      rw [List.length_cons] at hlen
      have hal : args.length = 4 := by omega
      obtain ⟨a1, a2, a3, a4, rfl⟩ := list_len_four hal
      rcases hp1 : parseInt a1 with _ | B1
      · right
        constructor
        · exact ⟨_, by
            rw [rowToIR]
            rw [if_neg hcmd1, if_neg hcmd2, if_neg hcmd3, if_pos hcmd4, if_neg (not_not_intro (by simp))]
            simp only [List.getD_cons_succ, List.getD_cons_zero]
            rw [hp1]⟩
        · intro hv
          rcases hv with ⟨h, h2, h3⟩ | ⟨h, h2, h3⟩ | ⟨h, h2, h3⟩ | ⟨h, h2, h3⟩
          · rw [hcmd4] at h
            exact absurd h (by decide)
          · rw [hcmd4] at h
            exact absurd h (by decide)
          · rw [hcmd4] at h
            exact absurd h (by decide)
          · have hx := h3 a1 (by simp)
            rw [hp1] at hx
            simp at hx
      rcases hp2 : parseInt a2 with _ | B2
      · right
        constructor
        · exact ⟨_, by
            rw [rowToIR]
            rw [if_neg hcmd1, if_neg hcmd2, if_neg hcmd3, if_pos hcmd4, if_neg (not_not_intro (by simp))]
            simp only [List.getD_cons_succ, List.getD_cons_zero]
            rw [hp1, hp2]⟩
        · intro hv
          rcases hv with ⟨h, h2, h3⟩ | ⟨h, h2, h3⟩ | ⟨h, h2, h3⟩ | ⟨h, h2, h3⟩
          · rw [hcmd4] at h
            exact absurd h (by decide)
          · rw [hcmd4] at h
            exact absurd h (by decide)
          · rw [hcmd4] at h
            exact absurd h (by decide)
          · have hx := h3 a2 (by simp)
            rw [hp2] at hx
            simp at hx
      rcases hp3 : parseInt a3 with _ | B3
      · right
        constructor
        · exact ⟨_, by
            rw [rowToIR]
            rw [if_neg hcmd1, if_neg hcmd2, if_neg hcmd3, if_pos hcmd4, if_neg (not_not_intro (by simp))]
            simp only [List.getD_cons_succ, List.getD_cons_zero]
            rw [hp1, hp2, hp3]⟩
        · intro hv
          rcases hv with ⟨h, h2, h3⟩ | ⟨h, h2, h3⟩ | ⟨h, h2, h3⟩ | ⟨h, h2, h3⟩
          · rw [hcmd4] at h
            exact absurd h (by decide)
          · rw [hcmd4] at h
            exact absurd h (by decide)
          · rw [hcmd4] at h
            exact absurd h (by decide)
          · have hx := h3 a3 (by simp)
            rw [hp3] at hx
            simp at hx
      rcases hp4 : parseInt a4 with _ | B4
      · right
        constructor
        · exact ⟨_, by
            rw [rowToIR]
            rw [if_neg hcmd1, if_neg hcmd2, if_neg hcmd3, if_pos hcmd4, if_neg (not_not_intro (by simp))]
            simp only [List.getD_cons_succ, List.getD_cons_zero]
            rw [hp1, hp2, hp3, hp4]⟩
        · intro hv
          rcases hv with ⟨h, h2, h3⟩ | ⟨h, h2, h3⟩ | ⟨h, h2, h3⟩ | ⟨h, h2, h3⟩
          · rw [hcmd4] at h
            exact absurd h (by decide)
          · rw [hcmd4] at h
            exact absurd h (by decide)
          · rw [hcmd4] at h
            exact absurd h (by decide)
          · have hx := h3 a4 (by simp)
            rw [hp4] at hx
            simp at hx
      · left
        constructor
        · exact ⟨_, by
            rw [rowToIR]
            rw [if_neg hcmd1, if_neg hcmd2, if_neg hcmd3, if_pos hcmd4, if_neg (not_not_intro (by simp))]
            simp only [List.getD_cons_succ, List.getD_cons_zero]
            rw [hp1, hp2, hp3, hp4]⟩
        · exact Or.inr (Or.inr (Or.inr ⟨hcmd4, rfl, by simp [List.forall_mem_cons, hp1, hp2, hp3, hp4]⟩))
  · right
    constructor
    · exact ⟨_, by rw [rowToIR]; rw [if_neg hcmd1, if_neg hcmd2, if_neg hcmd3, if_neg hcmd4]⟩
    · intro hv
      rcases hv with ⟨h, h2, h3⟩ | ⟨h, h2, h3⟩ | ⟨h, h2, h3⟩ | ⟨h, h2, h3⟩
      · exact hcmd1 h
      · exact hcmd2 h
      · exact hcmd3 h
      · exact hcmd4 h


theorem to_ir_from_spec (rows : List (List String)) (idx : Nat)
    (hne : ∀ r ∈ rows, r ≠ []) :
    (match to_ir_from idx rows with
     | .ok irs => irs.length = rows.length ∧
         (∀ k, (hk : k < rows.length) → (hk2 : k < irs.length) →
           rowToIR (idx + k) (rows.get ⟨k, hk⟩) = .ok (irs.get ⟨k, hk2⟩)) ∧
         (∀ r ∈ rows, rowValid r)
     | .error e => (∃ line msg, e = .validation line msg) ∧
         ¬ (∀ r ∈ rows, rowValid r)) := by
  induction rows generalizing idx with
  | nil =>
    have h0 : to_ir_from idx [] = .ok ([] : List IR) := rfl
    rw [h0]
    exact ⟨rfl, fun k hk hk2 => absurd hk (Nat.not_lt_zero k),
      fun r hr => absurd hr (List.not_mem_nil r)⟩
  | cons r rs ih =>
    have hr : r ≠ [] := hne r (List.mem_cons_self r rs)
    obtain ⟨first, args, rfl⟩ : ∃ f a, r = f :: a := by
      rcases r with _ | ⟨f, a⟩
      · exact absurd rfl hr
      · exact ⟨f, a, rfl⟩
    have hthis := ih (idx + 1) (fun x hx => hne x (List.mem_cons_of_mem _ hx))
    rcases rowToIR_cases idx first args with ⟨⟨ir, hok⟩, hval⟩ | ⟨⟨msg, herr⟩, hnval⟩
    · rcases hrec : to_ir_from (idx + 1) rs with e | irs
      · have htot : to_ir_from idx ((first :: args) :: rs) = .error e := by
          rw [to_ir_from, hok, hrec]
        rw [htot]
        rw [hrec] at hthis
        refine ⟨hthis.1, ?_⟩
        intro hall
        exact hthis.2 (fun x hx => hall x (List.mem_cons_of_mem _ hx))
      · have htot : to_ir_from idx ((first :: args) :: rs) = .ok (ir :: irs) := by
          rw [to_ir_from, hok, hrec]
        rw [htot]
        rw [hrec] at hthis
        refine ⟨?_, ?_, ?_⟩
        · rw [List.length_cons, List.length_cons, hthis.1]
        · intro k hk hk2
          cases k with
          | zero =>
            rw [Nat.add_zero]
            exact hok
          | succ j =>
            rw [show idx + (j + 1) = idx + 1 + j from by omega]
            exact hthis.2.1 j (by rw [List.length_cons] at hk; omega)
              (by rw [List.length_cons] at hk2; omega)
        · intro x hx
          rcases List.mem_cons.mp hx with rfl | hx'
          · exact hval
          · exact hthis.2.2 x hx'
    · have htot : to_ir_from idx ((first :: args) :: rs) =
          .error (.validation idx msg) := by
        rw [to_ir_from, herr]
      rw [htot]
      refine ⟨⟨idx, msg, rfl⟩, ?_⟩
      intro hall
      exact hnval (hall _ (List.mem_cons_self _ _))


theorem decode_not_alignment (cmd : Int) (s s' : VMState)
    (h : decode_and_execute_one cmd s = (s', some .alignmentError)) : False := by
  by_cases h13 : Int.land cmd (mask 5 : Int) = 13
  · rw [decode_when_13 cmd s h13] at h
    repeat' split at h
    all_goals simp at h
  by_cases h26 : Int.land cmd (mask 5 : Int) = 26
  · rw [decode_when_26 cmd s h26] at h
    repeat' split at h
    all_goals simp at h
  by_cases h15 : Int.land cmd (mask 5 : Int) = 15
  · rw [decode_when_15 cmd s h15] at h
    repeat' split at h
    all_goals simp at h
  by_cases h22 : Int.land cmd (mask 5 : Int) = 22
  · rw [decode_when_22 cmd s h22] at h
    repeat' split at h
    all_goals simp at h
  · rw [decode_when_unknown cmd s h13 h26 h15 h22] at h
    simp at h

theorem runLoop_not_alignment (fuel : Nat) (s : VMState)
    (h : (runLoop fuel s).2 = some .alignmentError) : False := by
  induction fuel generalizing s with
  | zero => simp [runLoop] at h
  | succ n ih =>
    by_cases hpc : s.pc < s.program_len
    · rcases hd : decode_and_execute_one (s.mem.getD s.pc 0) { s with pc := s.pc + 1 } with ⟨s2, e⟩
      cases e with
      | none =>
        rw [runLoop_step n s s2 hpc hd] at h
        exact ih s2 h
      | some e =>
        rw [runLoop_stop n s s2 e hpc hd] at h
        simp at h
        subst h
        exact decode_not_alignment _ _ _ hd
    · rw [runLoop_halt _ s hpc] at h
      simp at h

theorem loadWordsFrom_nonneg (ws : List Nat) (i : Nat) (mem : List Int)
    (h : ∀ x ∈ mem, 0 ≤ x) : ∀ x ∈ loadWordsFrom i ws mem, 0 ≤ x := by
  induction ws generalizing i mem with
  | nil => exact h
  | cons w ws ih =>
    rw [loadWordsFrom]
    apply ih
    intro x hx
    rcases List.mem_or_eq_of_mem_set hx with hx' | rfl
    · exact h x hx'
    · exact Int.ofNat_nonneg w

theorem loadedState_nonneg (words : List Nat) (m r : Nat) :
    nonnegState (loadedState words m r) := by
  constructor
  · intro x hx
    rw [List.eq_of_mem_replicate hx]
  · apply loadWordsFrom_nonneg
    intro x hx
    rw [List.eq_of_mem_replicate hx]

theorem wordsOfBytes_length (bs : List Nat) :
    (wordsOfBytes bs).length = bs.length / 4 := by
  induction bs using wordsOfBytes.induct with
  | case1 b0 b1 b2 b3 rest ih =>
    rw [wordsOfBytes, List.length_cons, ih]
    simp [List.length_cons]
    omega
  | case2 l h =>
    rcases l with _ | ⟨a, _ | ⟨b, _ | ⟨c, _ | ⟨d, t⟩⟩⟩⟩
    · simp [wordsOfBytes]
    · simp [wordsOfBytes]
    · simp [wordsOfBytes]
    · simp [wordsOfBytes]
    · exact absurd rfl (fun hcon => h a b c d t hcon)


theorem land_natCast (a b : Nat) :
    Int.land (a : Int) (b : Int) = ((a &&& b : Nat) : Int) := rfl

theorem lor_natCast (a b : Nat) :
    Int.lor (a : Int) (b : Int) = ((a ||| b : Nat) : Int) := rfl

theorem shiftRight_natCast (a n : Nat) :
    Int.shiftRight (a : Int) n = ((a >>> n : Nat) : Int) := rfl

theorem pyShiftLeft_natCast (a n : Nat) :
    pyShiftLeft (a : Int) n = ((a <<< n : Nat) : Int) := by
  unfold pyShiftLeft
  rw [Nat.shiftLeft_eq]
  push_cast
  ring

theorem nat_field_roundtrip (v off w : Nat) (h2 : off + w ≤ 32) :
    ((((v &&& (2 ^ w - 1)) <<< off) &&& (2 ^ 32 - 1)) >>> off) &&& (2 ^ w - 1) =
      v &&& (2 ^ w - 1) := by
  apply Nat.eq_of_testBit_eq
  intro i
  simp only [Nat.testBit_land, Nat.testBit_shiftRight, Nat.testBit_shiftLeft,
    Nat.testBit_two_pow_sub_one]
  by_cases hi : i < w
  · have h32 : off + i < 32 := by omega
    have hge : off + i ≥ off := Nat.le_add_right _ _
    simp [hi, h32, hge, Nat.add_sub_cancel_left]
  · simp [hi]

end UVM

namespace UVM

/-! ## The claims -/

/-- C1: assembling the four-row program `LOAD_CONST,0,123` /
`WRITE_MEM,0,100` / `LOAD_CONST,2,100` / `READ_MEM,2,1,0` and executing
the resulting bytes with the default memory size (65536 words) and
register count (32) succeeds and yields a final state with
`memory[100] = 123` and `register[1] = 123`. -/
theorem scenario_A_assemble_execute :
    (to_ir sAProgram).map
      (fun irs =>
        (run_binary_bytes (assemble irs) 65536 32).map
          (fun fin => (fin.mem.getD 100 0, fin.regs.getD 1 0))) =
      .ok (.ok ((123 : Int), (123 : Int))) := by
  rw [show to_ir sAProgram =
      .ok [IR.load_const 0 123, IR.write_mem 0 100, IR.load_const 2 100, IR.read_mem 2 1 0]
    from by decide]
  rw [show Except.map
      (fun irs =>
        (run_binary_bytes (assemble irs) 65536 32).map
          (fun fin => (fin.mem.getD 100 0, fin.regs.getD 1 0)))
      (Except.ok (ε := AsmError)
        [IR.load_const 0 123, IR.write_mem 0 100, IR.load_const 2 100, IR.read_mem 2 1 0]) =
      .ok ((run_binary_bytes (assemble
        [IR.load_const 0 123, IR.write_mem 0 100, IR.load_const 2 100, IR.read_mem 2 1 0])
        65536 32).map
          (fun fin => (fin.mem.getD 100 0, fin.regs.getD 1 0))) from rfl]
  rw [show assemble
      [IR.load_const 0 123, IR.write_mem 0 100, IR.load_const 2 100, IR.read_mem 2 1 0] =
      sABytes from by decide]
  rw [sArun]
  rw [show Except.map (ε := VMError)
      (fun fin : VMState => (fin.mem.getD 100 0, fin.regs.getD 1 0))
      (.ok ⟨((sARegs0.set 0 123).set 2 100).set 1 123, sAMem0.set 100 123, 4, 4⟩) =
      .ok (((sAMem0.set 100 123).getD 100 0,
        (((sARegs0.set 0 123).set 2 100).set 1 123).getD 1 0)) from rfl]
  rw [getD_set_self _ (by rw [sAMem0_len]; decide)]
  rw [getD_set_self _ (by simp [sARegs0])]

/-- C2 counterexample: POW with a negative exponent operand does not set
the destination register to the exact power.  Instruction word
`100671542` decodes to `POW B=1 C=2 D=0 E=3`; on the state with
`regs = [0, 5, 7, 4]` and `mem = [0, 0, 0, 0, 2, -1]` every bound of the
claim holds (`B`, `C`, `E` < 4, both addresses `4` and `5` < 6), the
operands are `op1 = mem[4] = 2` and `op2 = mem[5] = -1`, and the executed
instruction writes `0` (Python `int(pow(2, -1)) = int(0.5) = 0`) into
`reg[2]` — but `0` is not 2 raised to the power -1, so the claimed exact
power equation fails. -/
theorem pow_negative_exponent_not_exact :
    decode_and_execute_one 100671542 ⟨[0, 5, 7, 4], [0, 0, 0, 0, 2, -1], 0, 0⟩ =
      (⟨[0, 5, 0, 4], [0, 0, 0, 0, 2, -1], 0, 0⟩, none) ∧
    ((0 : ℚ) ≠ (2 : ℚ) ^ (-1 : ℤ)) := by
  constructor
  · decide
  · norm_num

/-- C2 amended: for every machine state and every instruction word whose
opcode field is 22 (POW), if registers `B`, `C`, `E` are within the
register count, both computed addresses `reg[E]+D` and `reg[B]` are
within memory size, and additionally the exponent operand `mem[reg[B]]`
is non-negative, then the instruction sets `reg[C]` to
`mem[reg[E]+D] ^ mem[reg[B]]` as an exact arbitrary-precision integer
(the register file holds unbounded `Int`s, so no truncation or wrapping
occurs), and leaves every other register, all of memory, the program
counter and the program length unchanged. -/
theorem pow_exact_on_nonneg_exponent (cmd : Int) (s : VMState)
    (hA : Int.land cmd (mask 5 : Int) = 22)
    (hB : (unpack_field cmd 5 7).toNat < s.regs.length)
    (hC : (unpack_field cmd 12 7).toNat < s.regs.length)
    (hE : (unpack_field cmd 25 7).toNat < s.regs.length)
    (ha10 : 0 ≤ s.regs.getD (unpack_field cmd 25 7).toNat 0 + unpack_field cmd 19 6)
    (ha11 : (s.regs.getD (unpack_field cmd 25 7).toNat 0 + unpack_field cmd 19 6).toNat
            < s.mem.length)
    (ha20 : 0 ≤ s.regs.getD (unpack_field cmd 5 7).toNat 0)
    (ha21 : (s.regs.getD (unpack_field cmd 5 7).toNat 0).toNat < s.mem.length)
    (hexp : 0 ≤ s.mem.getD (s.regs.getD (unpack_field cmd 5 7).toNat 0).toNat 0) :
    ∃ s', decode_and_execute_one cmd s = (s', none) ∧
      s'.regs.getD (unpack_field cmd 12 7).toNat 0 =
        (s.mem.getD (s.regs.getD (unpack_field cmd 25 7).toNat 0
          + unpack_field cmd 19 6).toNat 0) ^
        (s.mem.getD (s.regs.getD (unpack_field cmd 5 7).toNat 0).toNat 0).toNat ∧
      (∀ j, j ≠ (unpack_field cmd 12 7).toNat →
        s'.regs.getD j 0 = s.regs.getD j 0) ∧
      s'.mem = s.mem ∧ s'.pc = s.pc ∧ s'.program_len = s.program_len := by
  refine ⟨_, exec_pow cmd s hA hB hC hE ha10 ha11 ha20 ha21 hexp, ?_, ?_, rfl, rfl, rfl⟩
  · exact getD_set_self _ hC
  · intro j hj
    exact getD_set_of_ne _ _ (fun hc => hj hc.symm)

/-- Witness for the amended C2: on `regs = [0, 5, 7, 4]`,
`mem = [0, 0, 0, 0, 2, 3]`, the POW word `100671542` computes
`reg[2] = 2 ^ 3 = 8`. -/
theorem pow_exact_on_nonneg_exponent_witness :
    ∃ s', decode_and_execute_one 100671542 ⟨[0, 5, 7, 4], [0, 0, 0, 0, 2, 3], 0, 0⟩ =
      (s', none) ∧ s'.regs.getD 2 0 = 8 := by
  obtain ⟨s', h1, h2, -⟩ :=
    pow_exact_on_nonneg_exponent 100671542 ⟨[0, 5, 7, 4], [0, 0, 0, 0, 2, 3], 0, 0⟩
      (by decide) (by decide) (by decide) (by decide) (by decide) (by decide)
      (by decide) (by decide) (by decide)
  refine ⟨s', h1, ?_⟩
  rw [show (unpack_field 100671542 12 7).toNat = 2 from by decide] at h2
  rw [h2]
  decide

/-- C3 counterexample: assembling the single row `READ_MEM,2,1,0` does
not produce the bytes `1A 10 00 00` the spec lists: field `B = 2` sits at
bit 5, so the low byte is `0x5A`, not `0x1A`. -/
theorem read_mem_vector_not_1A :
    to_ir [["READ_MEM", "2", "1", "0"]] = .ok [IR.read_mem 2 1 0] ∧
    assemble [IR.read_mem 2 1 0] ≠ [0x1A, 0x10, 0x00, 0x00] := by
  constructor
  · decide
  · decide

/-- C3 amended: assembling the single textual row `READ_MEM,2,1,0`
produces exactly the 4 bytes `5A 10 00 00`, the little-endian encoding of
the 32-bit word `0x0000105A`. -/
theorem read_mem_vector_encodes_105A :
    to_ir [["READ_MEM", "2", "1", "0"]] = .ok [IR.read_mem 2 1 0] ∧
    assemble [IR.read_mem 2 1 0] = [0x5A, 0x10, 0x00, 0x00] ∧
    (0x0000105A : Nat) = 0x5A + 256 * 0x10 + 65536 * 0x00 + 16777216 * 0x00 := by
  refine ⟨by decide, by decide, by decide⟩

/-- C4: an error-free run executes exactly one fetch-decode-execute step
per loaded word: the final program counter equals the program length
(the loaded word count, `byte length / 4`), the fetched addresses are
exactly `0, 1, ..., n-1` in increasing order, and after `k` steps the
program counter is exactly `k` (it is incremented before the fetched
instruction executes).  The statement holds for every program and every
successful run, so no WRITE_MEM store during the run can change how many
steps execute or when the loop halts. -/
theorem straight_line_execution (code : List Nat) (m r : Nat) (fin : VMState)
    (h : run_binary_bytes code m r = .ok fin) :
    fin.program_len = code.length / 4 ∧
    fin.pc = fin.program_len ∧
    (runLoopTrace fin.program_len (loadedState (wordsOfBytes code) m r)).2 =
      List.range fin.program_len ∧
    (∀ k, k ≤ fin.program_len →
      (runLoop k (loadedState (wordsOfBytes code) m r)).2 = none ∧
      (runLoop k (loadedState (wordsOfBytes code) m r)).1.pc = k) := by
  unfold run_binary_bytes at h
  split at h
  · exact absurd h (by simp)
  dsimp only at h
  split at h
  · exact absurd h (by simp)
  split at h
  case _ fin' heq =>
    have hfin : fin = fin' := by
      rw [show (Except.ok fin' : Except VMError VMState) = .ok fin ↔ fin' = fin from by
        constructor
        · intro hh
          injection hh
        · intro hh
          rw [hh]] at h
      exact h.symm
    subst hfin
    have hok : (runLoop (wordsOfBytes code).length
        (loadedState (wordsOfBytes code) m r)).2 = none := by
      rw [heq]
    have hp := runLoop_pc_min (wordsOfBytes code).length
      (loadedState (wordsOfBytes code) m r) (Nat.zero_le _) hok
    rw [show (loadedState (wordsOfBytes code) m r).pc = 0 from rfl,
      show (loadedState (wordsOfBytes code) m r).program_len = (wordsOfBytes code).length
        from rfl, Nat.zero_add, Nat.min_self] at hp
    have hfin1 : fin = (runLoop (wordsOfBytes code).length
        (loadedState (wordsOfBytes code) m r)).1 := by
      rw [heq]
    have hpl : fin.program_len = (wordsOfBytes code).length := by
      rw [hfin1]
      exact hp.2
    have hpc : fin.pc = (wordsOfBytes code).length := by
      rw [hfin1]
      exact hp.1
    refine ⟨by rw [hpl, wordsOfBytes_length], by rw [hpc, hpl], ?_, ?_⟩
    · rw [hpl]
      have htr := runLoop_trace_range (wordsOfBytes code).length
        (loadedState (wordsOfBytes code) m r) (Nat.zero_le _) (Nat.sub_le _ _) hok
      rw [show (loadedState (wordsOfBytes code) m r).pc = 0 from rfl,
        show (loadedState (wordsOfBytes code) m r).program_len = (wordsOfBytes code).length
          from rfl, Nat.sub_zero] at htr
      rw [htr, List.range_eq_range']
    · intro k hk
      rw [hpl] at hk
      have hadd := runLoop_add k ((wordsOfBytes code).length - k)
        (loadedState (wordsOfBytes code) m r)
      rw [show k + ((wordsOfBytes code).length - k) = (wordsOfBytes code).length
        from by omega] at hadd
      by_cases hk2 : (runLoop k (loadedState (wordsOfBytes code) m r)).2 = none
      · refine ⟨hk2, ?_⟩
        have hq := runLoop_pc_min k (loadedState (wordsOfBytes code) m r)
          (Nat.zero_le _) hk2
        rw [show (loadedState (wordsOfBytes code) m r).pc = 0 from rfl,
          show (loadedState (wordsOfBytes code) m r).program_len =
            (wordsOfBytes code).length from rfl, Nat.zero_add] at hq
        rw [hq.1]
        omega
      · exfalso
        rw [if_neg hk2] at hadd
        rw [hadd] at hok
        exact hk2 hok
  case _ e heq =>
    exact absurd h (by simp)

/-- Witness for C4: the one-instruction program `[13, 0, 0, 0]`
(LOAD_CONST reg0 := 0) runs without error in a 4-word memory with 4
registers, and its final program counter equals its program length. -/
theorem straight_line_execution_witness :
    ∃ fin, run_binary_bytes [13, 0, 0, 0] 4 4 = .ok fin ∧
      fin.program_len = [13, 0, 0, 0].length / 4 ∧ fin.pc = fin.program_len := by
  refine ⟨⟨[0, 0, 0, 0], [13, 0, 0, 0], 1, 1⟩, by decide, ?_, ?_⟩
  · exact (straight_line_execution [13, 0, 0, 0] 4 4 _ (by decide)).1
  · exact (straight_line_execution [13, 0, 0, 0] 4 4 _ (by decide)).2.1

/-- C5: codec round trip.  The codec packs and unpacks unsigned integer
fields (spec section 2), so the field value ranges over `Nat`; for every
value, offset and width with `1 ≤ width ≤ 32 - offset`, unpacking the
field packed at that offset and width from the single-field packed word
returns the value masked to its low `width` bits. -/
theorem codec_roundtrip (value off width : Nat)
    (h1 : 1 ≤ width) (h2 : width ≤ 32 - off) :
    unpack_field (pack_fields [((value : Int), off, width)]) off width =
      ((value &&& ((1 <<< width) - 1) : Nat) : Int) := by
  have hm : mask width = 2 ^ width - 1 := by rw [mask, Nat.one_shiftLeft]
  have hpack : pack_fields [((value : Int), off, width)] =
      ((((value &&& (2 ^ width - 1)) <<< off) &&& (2 ^ 32 - 1) : Nat) : Int) := by
    unfold pack_fields
    rw [List.foldl_cons, List.foldl_nil]
    rw [show ((mask width : Nat) : Int) = ((2 ^ width - 1 : Nat) : Int) from by rw [hm]]
    rw [land_natCast, pyShiftLeft_natCast]
    rw [show (0 : Int) = ((0 : Nat) : Int) from rfl, lor_natCast]
    rw [show (0xFFFFFFFF : Int) = ((2 ^ 32 - 1 : Nat) : Int) from by norm_num]
    rw [land_natCast, Nat.zero_or]
  rw [hpack]
  unfold unpack_field
  rw [show ((mask width : Nat) : Int) = ((2 ^ width - 1 : Nat) : Int) from by rw [hm]]
  rw [shiftRight_natCast, land_natCast]
  rw [Nat.one_shiftLeft]
  exact congrArg _ (nat_field_roundtrip value off width (by omega))

/-- Witness for C5 at `value = 300`, `offset = 12`, `width = 7`. -/
theorem codec_roundtrip_witness :
    unpack_field (pack_fields [((300 : Nat), 12, 7)]) 12 7 =
      ((300 &&& ((1 <<< 7) - 1) : Nat) : Int) :=
  codec_roundtrip 300 12 7 (by decide) (by decide)

/-- C6: every register index and memory address an instruction uses is
bounds checked before the access: a step that completes without raising
has every used register index within the register count and every used
memory address within the memory size; an out-of-bounds error returns
the state exactly as it was (the partially decoded instruction performs
no write); and on a known opcode any bounds violation raises an
out-of-bounds error. -/
theorem bounds_checked_before_access (cmd : Int) (s : VMState) :
    ((decode_and_execute_one cmd s).2 = none → boundsOK cmd s) ∧
    (∀ s' w a, decode_and_execute_one cmd s = (s', some (.outOfBounds w a)) → s' = s) ∧
    (knownOpcode cmd → ¬ boundsOK cmd s →
      ∃ w a, decode_and_execute_one cmd s = (s, some (.outOfBounds w a))) := by
  refine ⟨decode_ok_bounds cmd s, ?_, decode_violation cmd s⟩
  intro s' w a h
  exact decode_error_frame cmd s s' _ h

/-- Witness for C6: opcode 13 with one register passes its check
(`boundsOK` holds after a successful step), and with an empty register
file the same opcode aborts with the state unchanged. -/
theorem bounds_checked_before_access_witness :
    boundsOK 13 ⟨[0], [], 0, 0⟩ ∧ ((⟨[], [], 3, 5⟩ : VMState) = ⟨[], [], 3, 5⟩) := by
  constructor
  · exact (bounds_checked_before_access 13 ⟨[0], [], 0, 0⟩).1 (by decide)
  · exact (bounds_checked_before_access 13 ⟨[], [], 3, 5⟩).2.1 ⟨[], [], 3, 5⟩
      "LOAD_CONST: register B" 0 (by decide)

/-- C7: on rows with at least a mnemonic token (as `parse_csv_program`
guarantees), the translator fails, with a ValidationError, exactly when
some row is invalid — wrong argument count for its mnemonic
(LOAD_CONST 2, READ_MEM 3, WRITE_MEM 2, POW 4), an argument that does not
parse as an integer, or an unknown (case-insensitive) mnemonic — and
otherwise emits exactly one IR record per row, the `k`-th record
translated from the `k`-th row. -/
theorem to_ir_validation_complete (rows : List (List String))
    (hne : ∀ row ∈ rows, row ≠ []) :
    (match to_ir rows with
     | .ok irs => irs.length = rows.length ∧
         (∀ k, (hk : k < rows.length) → (hk2 : k < irs.length) →
           rowToIR k (rows.get ⟨k, hk⟩) = .ok (irs.get ⟨k, hk2⟩)) ∧
         (∀ row ∈ rows, rowValid row)
     | .error e => (∃ line msg, e = .validation line msg) ∧
         ¬ (∀ row ∈ rows, rowValid row)) := by
  have h := to_ir_from_spec rows 0 hne
  unfold to_ir
  rcases hrec : to_ir_from 0 rows with e | irs
  · rw [hrec] at h
    exact h
  · rw [hrec] at h
    refine ⟨h.1, ?_, h.2.2⟩
    intro k hk hk2
    have := h.2.1 k hk hk2
    rw [Nat.zero_add] at this
    exact this

/-- Witness for C7: the singleton program `LOAD_CONST,1,2` translates
into exactly one IR record and the row is valid. -/
theorem to_ir_validation_complete_witness : rowValid ["LOAD_CONST", "1", "2"] := by
  have h := to_ir_validation_complete [["LOAD_CONST", "1", "2"]] (by simp)
  rw [show to_ir [["LOAD_CONST", "1", "2"]] = .ok [IR.load_const 1 2] from by decide] at h
  exact h.2.2 _ (List.mem_cons_self _ _)

/-- C8: executing a byte stream whose length is not a multiple of 4
raises the alignment error — this is the first check of
`run_binary_bytes`, before any state is built and before any instruction
executes — and a stream whose length is a multiple of 4 never produces
that error (the later checks and the execution loop raise only size,
out-of-bounds, unknown-opcode or zero-division errors). -/
theorem alignment_error_characterization (code : List Nat) (m r : Nat) :
    (code.length % 4 ≠ 0 → run_binary_bytes code m r = .error .alignmentError) ∧
    (code.length % 4 = 0 → run_binary_bytes code m r ≠ .error .alignmentError) := by
  constructor
  · intro h
    unfold run_binary_bytes
    rw [if_pos h]
  · intro h hcon
    unfold run_binary_bytes at hcon
    rw [if_neg (by simp [h])] at hcon
    dsimp only at hcon
    split at hcon
    · simp at hcon
    · split at hcon
      case _ fin heq =>
        simp at hcon
      case _ e heq =>
        rw [show (Except.error e : Except VMError VMState) = .error .alignmentError ↔
            e = .alignmentError from by
          constructor
          · intro hh
            injection hh
          · intro hh
            rw [hh]] at hcon
        subst hcon
        exact runLoop_not_alignment _ _ (by rw [heq])

/-- Witness for C8: the 1-byte stream `[0]` raises the alignment error,
and the empty (0-byte, aligned) stream does not. -/
theorem alignment_error_characterization_witness :
    run_binary_bytes [0] 4 4 = .error .alignmentError ∧
    run_binary_bytes [] 4 4 ≠ .error .alignmentError := by
  constructor
  · exact (alignment_error_characterization [0] 4 4).1 (by decide)
  · exact (alignment_error_characterization [] 4 4).2 (by decide)

/-- C9: from the execute entry point (zeroed registers and memory, then
the program words loaded), every reachable state — after any number of
loop steps — has all register values and all memory cell values
non-negative; consequently the exponent operand of POW is never negative
through this interface, the loop never raises the zero-division error of
the negative-exponent path, and any returned final state is
non-negative everywhere. -/
theorem nonneg_values_reachable (code : List Nat) (m r k : Nat) :
    nonnegState (runLoop k (loadedState (wordsOfBytes code) m r)).1 ∧
    (runLoop k (loadedState (wordsOfBytes code) m r)).2 ≠ some VMError.zeroDivision ∧
    (∀ fin, run_binary_bytes code m r = .ok fin → nonnegState fin) := by
  have hinit : nonnegState (loadedState (wordsOfBytes code) m r) :=
    loadedState_nonneg (wordsOfBytes code) m r
  have h := runLoop_nonneg k _ hinit
  refine ⟨h.1, h.2, ?_⟩
  intro fin hrun
  unfold run_binary_bytes at hrun
  split at hrun
  · exact absurd hrun (by simp)
  dsimp only at hrun
  split at hrun
  · exact absurd hrun (by simp)
  split at hrun
  case _ fin' heq =>
    have hfin : fin' = fin := by
      rw [show (Except.ok fin' : Except VMError VMState) = .ok fin ↔ fin' = fin from by
        constructor
        · intro hh
          injection hh
        · intro hh
          rw [hh]] at hrun
      exact hrun
    subst hfin
    have h2 := runLoop_nonneg (wordsOfBytes code).length _ hinit
    rw [heq] at h2
    exact h2.1
  case _ e heq =>
    exact absurd hrun (by simp)

/-- Witness for C9: after one step of the one-instruction program
`[13, 0, 0, 0]` all values are non-negative, and the final state of its
full run is non-negative. -/
theorem nonneg_values_reachable_witness :
    nonnegState (runLoop 1 (loadedState (wordsOfBytes [13, 0, 0, 0]) 4 4)).1 ∧
    nonnegState ⟨[0, 0, 0, 0], [13, 0, 0, 0], 1, 1⟩ := by
  constructor
  · exact (nonneg_values_reachable [13, 0, 0, 0] 4 4 1).1
  · exact (nonneg_values_reachable [13, 0, 0, 0] 4 4 1).2.2
      ⟨[0, 0, 0, 0], [13, 0, 0, 0], 1, 1⟩ (by decide)

/-- C10: if executing a single instruction raises any error, the
registers and the memory are exactly as they were before the instruction
began: each operation performs its single write only after all of its
checks and operand reads have succeeded. -/
theorem failed_step_preserves_state (cmd : Int) (s s' : VMState) (e : VMError)
    (h : decode_and_execute_one cmd s = (s', some e)) :
    s'.regs = s.regs ∧ s'.mem = s.mem := by
  rw [decode_error_frame cmd s s' e h]
  exact ⟨rfl, rfl⟩

/-- Witness for C10: the unknown opcode 0 raises and leaves the state
`regs = [1]`, `mem = [2]` untouched. -/
theorem failed_step_preserves_state_witness :
    (⟨[1], [2], 5, 7⟩ : VMState).regs = [1] ∧ (⟨[1], [2], 5, 7⟩ : VMState).mem = [2] :=
  failed_step_preserves_state 0 ⟨[1], [2], 5, 7⟩ ⟨[1], [2], 5, 7⟩
    (.unknownOpcode 0) (by decide)

end UVM
